import Mathlib

/-!
Verification development for the breakpoint-management subsystem
(`bp-table.cc`) of the Octave interpreter.

The development shallowly embeds the functions of `bp-table.cc`:
values of the interpreter (`octave_value`) become `OctValue`; the
trigger flags and identifier sets (`m_errors_that_stop`,
`debug_on_error`, `Vdebug_on_interrupt`, ...) become the record
`TrigState`; user code objects (`octave_user_code`) become the tree
`UCode`; the breakpoint table state (`m_bp_set` together with the
per-routine breakpoint storage owned by each routine body) becomes
`TblState`.  External collaborators that are not part of the file
(the expression parser used by `condition_valid`, the per-routine
body store `tree_statement_list`, the evaluator's `get_user_code`)
are modelled from the specification's description of their
interfaces; each such definition carries a doc comment starting
with "Modelled from the spec:".
-/

/-- Embedding of `octave_value` restricted to the shapes the dbstop
argument list can contain: character strings and numeric arrays. -/
inductive OctValue where
  | str (s : String)
  | num (ns : List Int)
deriving DecidableEq

/-- `octave_value::is_string`. -/
def OctValue.is_string : OctValue → Bool
  | .str _ => true
  | .num _ => false

/-- `octave_value::isnumeric`. -/
def OctValue.isnumeric : OctValue → Bool
  | .str _ => false
  | .num _ => true

/-- `octave_value::string_value`: raises a wrong-type-argument error
on a non-string value, like the C++ member without `force`. -/
def OctValue.string_value : OctValue → Except String String
  | .str s => .ok s
  | .num _ => .error "wrong type argument"

/-- `octave_value::array_value` for the numeric case (the call sites
guard with `isnumeric`). -/
def OctValue.array_value : OctValue → List Int
  | .str _ => []
  | .num ns => ns

/-- `args(pos)` on an `octave_value_list`; the call sites guard with
`pos < nargin` where `nargin` is the length of the list. -/
def argAt (args : List OctValue) (pos : Nat) : OctValue :=
  args.getD pos (OctValue.str "")

/-- `std::set<std::string>::insert`: membership-preserving insert.
The embedding keeps the set as a duplicate-free list; ordering of the
underlying `std::set` is irrelevant to every property proved here. -/
def setInsert (l : List String) (s : String) : List String :=
  if s ∈ l then l else l ++ [s]

/-- `std::set<std::string>::erase` by value. -/
def setErase (l : List String) (s : String) : List String :=
  l.filter (fun x => x ≠ s)

/-- The trigger state of `bp_table`: the three identifier sets
`m_errors_that_stop`, `m_caught_that_stop`, `m_warnings_that_stop`,
the flags `debug_on_error`, `debug_on_caught`, `debug_on_warning` of
the error system, and the process-wide `Vdebug_on_interrupt`. -/
structure TrigState where
  errors_that_stop : List String
  caught_that_stop : List String
  warnings_that_stop : List String
  debug_on_error : Bool
  debug_on_caught : Bool
  debug_on_warning : Bool
  debug_on_interrupt : Bool
deriving DecidableEq

/-- The identifier set `process_id_list` receives (by reference) for
a given condition word; all call sites pair `"error"` with
`m_errors_that_stop`, `"warning"` with `m_warnings_that_stop` and
`"caught"` with `m_caught_that_stop`. -/
def TrigState.idSetOf (st : TrigState) (condition : String) : List String :=
  if condition = "error" then st.errors_that_stop
  else if condition = "warning" then st.warnings_that_stop
  else st.caught_that_stop

/-- Write back the identifier set selected by `TrigState.idSetOf`. -/
def TrigState.withIdSet (st : TrigState) (condition : String) (l : List String) : TrigState :=
  if condition = "error" then { st with errors_that_stop := l }
  else if condition = "warning" then { st with warnings_that_stop := l }
  else { st with caught_that_stop := l }

/-- The stop flag associated with a condition word by
`bp_table::set_stop_flag`. -/
def TrigState.flagOf (st : TrigState) (condition : String) : Bool :=
  if condition = "error" then st.debug_on_error
  else if condition = "warning" then st.debug_on_warning
  else st.debug_on_caught

/-- `bp_table::set_stop_flag`. -/
def set_stop_flag (who condition : String) (on_off : Bool) (st : TrigState) :
    Except String TrigState :=
  if condition = "error" then .ok { st with debug_on_error := on_off }
  else if condition = "warning" then .ok { st with debug_on_warning := on_off }
  else if condition = "caught" then .ok { st with debug_on_caught := on_off }
  else .error (who ++ ": internal error in set_stop_flag")

/-- `bp_table::process_id_list`.  Returns the updated `pos` together
with the updated trigger state.  The by-reference `id_list` argument
of the C++ function is represented by the condition word, which picks
the same member set that every call site passes. -/
def process_id_list (who condition : String) (args : List OctValue) (nargin pos : Nat)
    (on_off : Bool) (st : TrigState) : Except String (Nat × TrigState) :=
  let pos := pos + 1
  if nargin > pos then
    -- only affect a single error ID
    if (argAt args pos).is_string = false ∨ nargin > pos + 1 then
      .error (who ++ ": ID must be a single string")
    else
      match (argAt args pos).string_value with
      | .error e => .error e
      | .ok id =>
        if on_off then
          let st1 := st.withIdSet condition (setInsert (st.idSetOf condition) id)
          (set_stop_flag who condition true st1).map (fun st2 => (pos, st2))
        else
          let st1 := st.withIdSet condition (setErase (st.idSetOf condition) id)
          if st1.idSetOf condition = [] then
            (set_stop_flag who condition false st1).map (fun st2 => (pos, st2))
          else
            .ok (pos, st1)
  else
    -- unqualified: turn all on or off
    let st1 := st.withIdSet condition []
    match set_stop_flag who condition on_off st1 with
    | .error e => .error e
    | .ok st2 =>
      if condition = "error" then
        -- Matlab stops on both.
        .ok (pos, { st2 with debug_on_interrupt := on_off })
      else
        .ok (pos, st2)

/-- Embedding of `octave_user_code`: a top-level function or script
together with its (recursive) subfunction map.  `key` identifies the
routine's body storage (in C++ this identity is the object address);
`body` is `none` when `fcn->body ()` is a null pointer, and otherwise
carries the map "requested line ↦ actual (snapped) line" of the
routine's body — "Modelled from the spec:" the external
`RoutineBodyStore.insert` snaps a requested line to the line actually
used, with 0 meaning "not applicable".  `subs` lists the entries of
`subfunctions ()` in the map's iteration order, and `subNames` is the
separately ordered `subfunction_names ()` list (file-declaration
order). -/
inductive UCode : Type where
  | mk (key : Nat) (beg endl : Int) (isUF : Bool) (file : String)
      (body : Option (List (Int × Int)))
      (subNames : List String) (subs : List (String × UCode))

/-- `beginning_line ()`. -/
def UCode.beg : UCode → Int
  | .mk _ b _ _ _ _ _ _ => b

/-- `ending_line ()`. -/
def UCode.endl : UCode → Int
  | .mk _ _ e _ _ _ _ _ => e

/-- `is_user_function ()`. -/
def UCode.isUF : UCode → Bool
  | .mk _ _ _ u _ _ _ _ => u

/-- `fcn_file_name ()`. -/
def UCode.file : UCode → String
  | .mk _ _ _ _ f _ _ _ => f

/-- Identity of the routine's body storage. -/
def UCode.key : UCode → Nat
  | .mk k _ _ _ _ _ _ _ => k

/-- `body ()`; `none` is the null pointer. -/
def UCode.body : UCode → Option (List (Int × Int))
  | .mk _ _ _ _ _ bd _ _ => bd

/-- `subfunction_names ()`: file-declaration order. -/
def UCode.subNames : UCode → List String
  | .mk _ _ _ _ _ _ ns _ => ns

/-- `subfunctions ()`: the name-keyed map, as its iteration order. -/
def UCode.subs : UCode → List (String × UCode)
  | .mk _ _ _ _ _ _ _ s => s

/-- `std::numeric_limits<int>::max ()`. -/
def intMax : Int := 2147483647

mutual
/-- `find_fcn_by_line`: returns the resolved (sub)function together
with the final local `earliest_end`; the C++ out-parameter update
`if (earliest_end < *end_line) *end_line = earliest_end` is performed
by the caller (see `findLoop`), which passes the just-assigned
`ending_line ()` and keeps the minimum. -/
def find_fcn_by_line (main : UCode) (lineno : Int) : Option UCode × Int :=
  match main with
  | .mk k b e u f bd nms subs =>
    let st := findLoop lineno subs none none intMax
    let retval := st.1
    let next_fcn := st.2.1
    let earliest := st.2.2
    let retval2 :=
      if u then
        -- the breakpoint is in the subfunction found above, or in the
        -- main function, which we check now
        let r := if e ≥ lineno ∧ e < earliest then some (UCode.mk k b e u f bd nms subs) else retval
        match r with
        | none => next_fcn
        | some w => some w
      else
        -- main_fcn is a script
        match retval with
        | none => some (UCode.mk k b e u f bd nms subs)
        | some w => some w
    (retval2, earliest)
termination_by sizeOf main

/-- The loop of `find_fcn_by_line` over the `subfunctions ()` map. -/
def findLoop (lineno : Int) (subs : List (String × UCode))
    (retval next_fcn : Option UCode) (earliest : Int) : Option UCode × Option UCode × Int :=
  match subs with
  | [] => (retval, next_fcn, earliest)
  | (_, c) :: rest =>
    if c.isUF then
      let rv1 :=
        if c.endl < earliest ∧ c.endl ≥ lineno ∧ c.beg ≤ lineno then
          let p := find_fcn_by_line c lineno
          (p.1, min c.endl p.2)
        else (retval, earliest)
      let next1 :=
        if lineno ≤ c.beg then
          match next_fcn with
          | none => some c
          | some w => some w
        else next_fcn
      findLoop lineno rest rv1.1 next1 rv1.2
    else
      findLoop lineno rest retval next_fcn earliest
termination_by sizeOf subs
end

mutual
/-- All routines of a `UCode` tree: the routine itself and,
recursively, every subfunction. -/
def UCode.nodes : UCode → List UCode
  | .mk k b e u f bd nms subs => .mk k b e u f bd nms subs :: nodesList subs
termination_by r => sizeOf r

/-- Nodes of a subfunction list, in order. -/
def nodesList : List (String × UCode) → List UCode
  | [] => []
  | (_, c) :: rest => c.nodes ++ nodesList rest
termination_by l => sizeOf l
end

/-- The requested line lies in the declared `[begin, end]` range. -/
def containsL (r : UCode) (lineno : Int) : Prop :=
  r.beg ≤ lineno ∧ lineno ≤ r.endl

instance (r : UCode) (lineno : Int) : Decidable (containsL r lineno) := by
  unfold containsL; infer_instance

/-- `c`'s declared range lies inside `p`'s declared range. -/
def InsideR (c p : UCode) : Prop :=
  p.beg ≤ c.beg ∧ c.endl ≤ p.endl

/-- Disjoint declared ranges. -/
def DisjR (a b : UCode) : Prop :=
  a.endl < b.beg ∨ b.endl < a.beg

instance (c p : UCode) : Decidable (InsideR c p) := by
  unfold InsideR; infer_instance

instance (a b : UCode) : Decidable (DisjR a b) := by
  unfold DisjR; infer_instance

/-- Well-formedness of a subfunction subtree as the parser produces
it below the top level: a valid non-degenerate range within `int`,
pairwise disjoint sibling ranges, every subfunction a user function
nested inside its parent's range. -/
inductive SWf : UCode → Prop where
  | intro (k : Nat) (b e : Int) (u : Bool) (f : String)
      (bd : Option (List (Int × Int))) (nms : List String) (subs : List (String × UCode)) :
      b ≤ e → e < intMax →
      List.Pairwise DisjR (subs.map Prod.snd) →
      (∀ c ∈ subs.map Prod.snd, c.isUF = true ∧ InsideR c (UCode.mk k b e u f bd nms subs)) →
      (∀ c ∈ subs.map Prod.snd, SWf c) →
      SWf (UCode.mk k b e u f bd nms subs)

/-- Well-formedness of a top-level routine: valid range, pairwise
disjoint well-formed user-function children, each child either nested
inside the top routine's range (a nested function) or beginning after
its end (an Octave subfunction, which follows the main function in
the file). -/
def TopWf (m : UCode) : Prop :=
  m.beg ≤ m.endl ∧ m.endl < intMax ∧
  List.Pairwise DisjR (m.subs.map Prod.snd) ∧
  ∀ c ∈ m.subs.map Prod.snd,
    c.isUF = true ∧ (InsideR c m ∨ m.endl < c.beg) ∧ SWf c

/-- Embedding of `tree_expression` as far as `condition_valid`
inspects it. -/
structure TreeExpr where
  is_assignment_expression : Bool
deriving DecidableEq

/-- Embedding of `tree_statement` as far as `condition_valid`
inspects it: an expression statement or any other statement kind. -/
inductive TreeStmt where
  | expr (e : TreeExpr)
  | command
deriving DecidableEq

/-- `tree_statement::is_expression`. -/
def TreeStmt.is_expression : TreeStmt → Bool
  | .expr _ => true
  | .command => false

/-- `tree_statement::expression` (the call site guards with
`is_expression`). -/
def TreeStmt.expression : TreeStmt → TreeExpr
  | .expr e => e
  | .command => ⟨false⟩

/-- Outcome of running the external expression parser on a text:
a nonzero `parse_status`, a null statement list, or a statement
list. -/
inductive ParseOutcome where
  | failed
  | noList
  | stmts (l : List TreeStmt)
deriving DecidableEq

/-- `bp_table::condition_valid`, parameterised by the external
expression parser (an external collaborator of the file). -/
def condition_valid (parse : String → ParseOutcome) (cond : String) : Except String Bool :=
  if cond.length > 0 then
    -- "; to reject partial expr like y=="
    match parse (cond ++ " ;") with
    | .failed => .error "dbstop: Cannot parse condition"
    | .noList => .error "dbstop: condition is not empty, but has nothing to evaluate"
    | .stmts l =>
      match l with
      | [stmt] =>
        if stmt.is_expression then
          if stmt.expression.is_assignment_expression then
            .error "dbstop: condition cannot be an assignment.  Did you mean ==?"
          else
            .ok true
        else
          .error "dbstop: condition must be an expression"
      | _ => .error "dbstop: condition must be an expression"
  else
    .ok true

/-- Modelled from the spec: the external expression parser's
behaviour on the three condition texts named by the specification
(P5).  `y=5` parses to a single expression statement that is a plain
assignment; `y+=10` and `y++` parse to single expression statements
that `is_assignment_expression` does not flag (the source comment
notes this explicitly); anything else is treated as failing to
parse. -/
def specParse : String → ParseOutcome := fun s =>
  if s = "y=5 ;" then .stmts [.expr ⟨true⟩]
  else if s = "y+=10 ;" then .stmts [.expr ⟨false⟩]
  else if s = "y++ ;" then .stmts [.expr ⟨false⟩]
  else .failed

/-- The dynamic state of the breakpoint table: `m_bp_set` and, for
each routine body (identified by `UCode.key`), the list of breakpoint
lines its body store currently holds.  The per-key storage is
"Modelled from the spec:" it stands for the external
`RoutineBodyStore` owned by each routine. -/
structure TblState where
  bp_set : List String
  store : Nat → List Int

/-- Modelled from the spec: the evaluator's
`get_user_code (fname, class_name)`; the one-argument overload is
`envFind1`. -/
def Env : Type := String → String → Option UCode

/-- `m_evaluator.get_user_code (fname)`. -/
def envFind1 (env : Env) (fname : String) : Option UCode :=
  env fname ""

/-- The actual line for one requested line, per the body's snap map
(0 when the body has no statement to attach the breakpoint to). -/
def snapOf (bmap : List (Int × Int)) (lineno : Int) : Int :=
  (bmap.lookup lineno).getD 0

/-- Normalization performed by `add_breakpoint_1` before inserting
into `m_bp_set`: keep only the part of `fname` before the first `>`
(`strchr` + `substr`), so that `file>subfunction` records as `file`. -/
def normalizeBpName (fname : String) : String :=
  String.mk (fname.data.takeWhile (fun c => c ≠ '>'))

/-- `bp_table::intmap`: `std::map<int, int>` as an association list
with distinct keys. -/
abbrev IntMap := List (Int × Int)

/-- `std::map::insert`: inserts only when the key is absent. -/
def IntMap.insert (m : IntMap) (k v : Int) : IntMap :=
  if (m.lookup k).isSome then m else m ++ [(k, v)]

/-- `std::map::operator[]` followed by assignment: overwrite or
append. -/
def IntMap.set (m : IntMap) (k v : Int) : IntMap :=
  if (m.lookup k).isSome then m.map (fun p => if p.1 = k then (k, v) else p)
  else m ++ [(k, v)]

/-- `tree_statement_list::add_breakpoint` on the body `bmap` of the
routine identified by `key`.  Modelled from the spec: for every entry
of the requested map the store reports the snapped actual line
(0 = not applicable) and records a breakpoint at each nonzero actual
line. -/
def bodyAddBreakpoints (bmap : List (Int × Int)) (key : Nat) (line : IntMap)
    (tbl : TblState) : IntMap × TblState :=
  let ret := line.map (fun p => (p.1, snapOf bmap p.2))
  let inserted := (ret.filter (fun p => p.2 ≠ 0)).map Prod.snd
  (ret, { tbl with store := fun k => if k = key then tbl.store key ++ inserted else tbl.store k })

/-- `bp_table::add_breakpoint_1`: insert through the body store and,
if any line was actually set, record the normalized `fname` in
`m_bp_set`.  Returns `found`, the per-index actual lines (`retval` of
the C++ function) and the updated table state. -/
def add_breakpoint_1 (fcn : UCode) (fname : String) (line : IntMap)
    (tbl : TblState) : Bool × IntMap × TblState :=
  match fcn.body with
  | none => (false, [], tbl)
  | some bmap =>
    let r := bodyAddBreakpoints bmap fcn.key line tbl
    let found := r.1.any (fun p => p.2 ≠ 0)
    if found then
      (true, r.1, { r.2 with bp_set := setInsert r.2.bp_set (normalizeBpName fname) })
    else
      (false, r.1, r.2)

/-- The loop of `bp_table::add_breakpoint` over the indices
`0 .. len-1` of the requested-line map. -/
def addLoop (main : UCode) (fname : String) (line : IntMap)
    (idxs : List Nat) (retval : IntMap) (tbl : TblState) : IntMap × TblState :=
  match idxs with
  | [] => (retval, tbl)
  | i :: rest =>
    match line.lookup (Int.ofNat i) with
    | none => addLoop main fname line rest retval tbl
    | some lineno =>
      match (find_fcn_by_line main lineno).1 with
      | none => addLoop main fname line rest retval tbl
      | some dbg_fcn =>
        let r := add_breakpoint_1 dbg_fcn fname line tbl
        if r.1 then
          addLoop main fname line rest
            (retval.insert (Int.ofNat i) ((r.2.1.lookup (Int.ofNat i)).getD 0)) r.2.2
        else
          addLoop main fname line rest retval r.2.2

/-- `bp_table::add_breakpoint`. -/
def add_breakpoint (env : Env) (parse : String → ParseOutcome)
    (fname class_name : String) (line : IntMap) (condition : String)
    (tbl : TblState) : Except String (IntMap × TblState) :=
  match env fname class_name with
  | none => .error "add_breakpoint: unable to find function"
  | some main =>
    match condition_valid parse condition with
    | .error e => .error e
    | .ok _ => .ok (addLoop main fname line (List.range line.length) [] tbl)

/-- One step of the deletion loop of `bp_table::remove_breakpoint_1`:
look the index up and delete the breakpoints at that line
(`tree_statement_list::delete_breakpoint`, modelled from the spec as
removing every breakpoint stored at that line). -/
def deleteOne (line : IntMap) (b : List Int) (i : Nat) : List Int :=
  match line.lookup (Int.ofNat i) with
  | some lineno => b.filter (fun x => x ≠ lineno)
  | none => b

/-- The deletion loop of `bp_table::remove_breakpoint_1` over the
indices `0 .. len-1`. -/
def deleteLines (line : IntMap) (bps : List Int) : List Int :=
  (List.range line.length).foldl (deleteOne line) bps

/-- `bp_table::remove_breakpoint_1`: returns the length of the
routine's breakpoint list after the deletions (the C++ function
re-lists the breakpoints and returns that length) and the updated
state; erases `fname` from `m_bp_set` when this routine's list became
empty. -/
def remove_breakpoint_1 (fcn : UCode) (fname : String) (line : IntMap)
    (tbl : TblState) : Nat × TblState :=
  match fcn.body with
  | none => (0, tbl)
  | some _ =>
    let results := tbl.store fcn.key
    if results.length > 0 then
      let results2 := deleteLines line results
      let tbl2 : TblState :=
        { bp_set := if results2.length = 0 ∧ fname ∈ tbl.bp_set then setErase tbl.bp_set fname
                    else tbl.bp_set,
          store := fun k => if k = fcn.key then results2 else tbl.store k }
      (results2.length, tbl2)
    else
      (results.length, tbl)

/-- The subfunction sweep of `bp_table::remove_breakpoint`: iterate
`subfunction_names ()` in file-declaration order, look each name up
in the `subfunctions ()` map, and accumulate `remove_breakpoint_1`
over the hits. -/
def removeSubLoop (fname : String) (line : IntMap) (subs : List (String × UCode))
    (names : List String) (acc : Nat) (tbl : TblState) : Nat × TblState :=
  match names with
  | [] => (acc, tbl)
  | nm :: rest =>
    match subs.lookup nm with
    | none => removeSubLoop fname line subs rest acc tbl
    | some dbg_subfcn =>
      let r := remove_breakpoint_1 dbg_subfcn fname line tbl
      removeSubLoop fname line subs rest (acc + r.1) r.2

/-- `tree_statement_list::remove_all_breakpoints` on the routine
identified by `key`: modelled from the spec as clearing that
routine's store and returning the removed entries. -/
def bodyRemoveAll (key : Nat) (tbl : TblState) : List Int × TblState :=
  (tbl.store key, { tbl with store := fun k => if k = key then [] else tbl.store k })

/-- `bp_table::remove_all_breakpoints_in_file`. -/
def remove_all_breakpoints_in_file (env : Env) (fname : String) (silent : Bool)
    (tbl : TblState) : Except String (List Int × TblState) :=
  match envFind1 env fname with
  | some dbg_fcn =>
    match dbg_fcn.body with
    | some _ =>
      let r := bodyRemoveAll dbg_fcn.key tbl
      .ok (r.1, { r.2 with bp_set := setErase r.2.bp_set fname })
    | none => .ok ([], tbl)
  | none =>
    if silent then .ok ([], tbl)
    else .error "remove_all_breakpoint_in_file: unable to find function"

/-- `bp_table::remove_breakpoint`. -/
def remove_breakpoint (env : Env) (fname : String) (line : IntMap)
    (tbl : TblState) : Except String (Nat × TblState) :=
  if line.length = 0 then
    match remove_all_breakpoints_in_file env fname false tbl with
    | .error e => .error e
    | .ok r => .ok (r.1.length, r.2)
  else
    match envFind1 env fname with
    | none => .error "remove_breakpoint: unable to find function"
    | some dbg_fcn =>
      let r := remove_breakpoint_1 dbg_fcn fname line tbl
      .ok (removeSubLoop fname line dbg_fcn.subs dbg_fcn.subNames r.1 r.2)

/-- The loop of `bp_table::remove_all_breakpoints` over `m_bp_set`.
The C++ loop walks the live set with a saved `it_next`; since every
step erases exactly the current element and inserts nothing, this is
the same as walking the list of names the set held at entry. -/
def removeAllLoop (env : Env) (names : List String) (tbl : TblState) :
    Except String TblState :=
  match names with
  | [] => .ok tbl
  | nm :: rest =>
    match remove_all_breakpoints_in_file env nm false tbl with
    | .error e => .error e
    | .ok r => removeAllLoop env rest r.2

/-- `bp_table::remove_all_breakpoints`. -/
def remove_all_breakpoints (env : Env) (tbl : TblState) : Except String TblState :=
  removeAllLoop env tbl.bp_set tbl

/-- `isspace` for the characters `atoi` skips. -/
def isSpaceChar (c : Char) : Bool :=
  c = ' ' ∨ c = '\t' ∨ c = '\n' ∨ c = '\x0b' ∨ c = '\x0c' ∨ c = '\r'

/-- The digit-accumulation loop of `atoi`. -/
def atoiLoop : List Char → Int → Int
  | [], acc => acc
  | c :: rest, acc =>
    if c.isDigit then atoiLoop rest (acc * 10 + ((c.toNat : Int) - 48)) else acc

/-- C `atoi`: skip whitespace, optional sign, leading digits; 0 when
no digits follow. -/
def atoi (s : String) : Int :=
  match s.data.dropWhile isSpaceChar with
  | '-' :: rest => - atoiLoop rest 0
  | '+' :: rest => atoiLoop rest 0
  | cs => atoiLoop cs 0

/-- The `dbstop_args` enumeration. -/
inductive DbstopArg where
  | dbstop_in
  | dbstop_at
  | dbstop_if
  | dbstop_none
deriving DecidableEq

/-- Ambient context of `parse_dbfunction_params`: the command name
(`"dbstop"` or `"dbclear"`), and the evaluator facts it consults —
`m_evaluator.in_debug_repl ()` and, when stopped, the
`profiler_name ()` of the current user code. -/
structure ParseEnv where
  who : String
  in_debug_repl : Bool
  repl_fcn_name : String

/-- The out-parameters of `parse_dbfunction_params`. -/
structure ParseOut where
  func_name : String
  class_name : String
  lines : IntMap
  cond : String
deriving DecidableEq

/-- Is this argument consumed by the line-number scan?  A string is
consumed when `atoi` of it is positive; a numeric array is always
consumed. -/
def lineTok (a : OctValue) : Bool :=
  match a with
  | .str s => atoi s > 0
  | .num _ => true

/-- The "Read a list of line numbers (or arrays thereof)" loop of the
`dbstop_at` case: scan forward from `pos`, adding one ordered entry
per string token with positive `atoi` and one per numeric array
element (no positivity check there), stopping at the first token that
is neither — which begins the next clause.  Returns the new position,
the updated line map, and the updated `list_idx`. -/
def readLines (args : List OctValue) (nargin pos : Nat) (lines : IntMap) (list_idx : Int) :
    Nat × IntMap × Int :=
  let toks := ((args.take nargin).drop pos).takeWhile lineTok
  let r := toks.foldl
    (fun (p : IntMap × Int) a =>
      match a with
      | .str s => (p.1.set p.2 (atoi s), p.2 + 1)
      | .num ns => ns.foldl (fun (q : IntMap × Int) v => (q.1.set q.2 v, q.2 + 1)) p)
    (lines, list_idx)
  (pos + toks.length, r.1, r.2)

/-- The condition-joining loop of the `dbstop_if` case with a prior
`in`: remaining arguments must all be strings and are joined with
single spaces (the caller drops the leading space). -/
def joinCond (env : ParseEnv) (args : List OctValue) (nargin pos : Nat) (cond : String) :
    Except String (Nat × String) :=
  if pos < nargin then
    match argAt args pos with
    | .str s => joinCond env args nargin (pos + 1) (cond ++ " " ++ s)
    | .num _ => .error (env.who ++ ": arguments to if must all be strings")
  else
    .ok (pos, cond)
termination_by nargin - pos

/-- The `while (pos < nargin)` loop of
`bp_table::parse_dbfunction_params`.  The C++ loop's variant is `pos`
itself: every iteration either reports an error or strictly advances
`pos` (the event forms set `pos = nargin`), so the `fuel` parameter —
supplied as `nargin + 1` by `parse_dbfunction_params` — never runs
out; it only makes the recursion structural. -/
def parseLoop (env : ParseEnv) (args : List OctValue) (nargin : Nat) (fuel pos : Nat)
    (seen_in seen_at seen_if : Bool)
    (func_name class_name : String) (lines : IntMap) (list_idx : Int) (cond : String)
    (st : TrigState) : Except String (ParseOut × TrigState) :=
  match fuel with
  | 0 => .error "internal: loop variant exhausted"
  | fuel + 1 =>
    if pos < nargin then
      -- allow "in" and "at" to be implicit
      let cls : DbstopArg × Nat :=
        match argAt args pos with
        | .str s =>
          if s = "in" then (.dbstop_in, pos + 1)
          else if s = "at" then (.dbstop_at, pos + 1)
          else if s = "if" then (.dbstop_if, pos + 1)
          else if atoi s > 0 then (.dbstop_at, pos)
          else (.dbstop_in, pos)
        | .num _ => (.dbstop_at, pos)
      let tok := cls.1
      let pos1 := cls.2
      if pos1 ≥ nargin then
        .error (env.who ++ ": missing argument")
      else
        match tok with
        | .dbstop_in =>
          match (argAt args pos1).string_value with
          | .error e => .error e
          | .ok fn =>
            if seen_in then
              .error (env.who ++ ": Too many function names specified -- " ++ fn)
            else if seen_at ∨ seen_if then
              .error (env.who ++ ": function name must come before line number and if")
            else
              parseLoop env args nargin fuel (pos1 + 1) true seen_at seen_if
                fn class_name lines list_idx cond st
        | .dbstop_at =>
          if seen_at then
            match (argAt args pos1).string_value with
            | .error e => .error e
            | .ok s => .error (env.who ++ ": Only one at clause is allowed -- " ++ s)
          else if seen_if then
            .error (env.who ++ ": line number must come before if clause")
          else if seen_in then
            -- (the second `if (seen_if)` check of the source is dead here)
            match (argAt args pos1).string_value with
            | .error e => .error e
            | .ok arg =>
              if atoi arg = 0 then
                -- class and method names: the class was stored in func_name
                parseLoop env args nargin fuel (pos1 + 1) seen_in true seen_if
                  arg func_name lines list_idx cond st
              else
                let r := readLines args nargin pos1 lines list_idx
                parseLoop env args nargin fuel r.1 seen_in true seen_if
                  func_name class_name r.2.1 r.2.2 cond st
          else
            if env.in_debug_repl then
              -- it was a line number; get the function name from the debugger
              let r := readLines args nargin pos1 lines list_idx
              parseLoop env args nargin fuel r.1 true true seen_if
                env.repl_fcn_name class_name r.2.1 r.2.2 cond st
            else
              .error (env.who ++ ": function name must come before line number and if")
        | .dbstop_if =>
          if seen_in then
            -- conditional breakpoint: remaining arguments form the condition
            match joinCond env args nargin pos1 "" with
            | .error e => .error e
            | .ok r =>
              parseLoop env args nargin fuel r.1 seen_in seen_at seen_if
                func_name class_name lines list_idx (r.2.drop 1) st
          else
            -- stop on event (error, warning, interrupt, NaN/inf)
            match (argAt args pos1).string_value with
            | .error e => .error e
            | .ok condition =>
              let on_off := env.who == "dbstop"
              if condition = "error" then
                match process_id_list env.who condition args nargin pos1 on_off st with
                | .error e => .error e
                | .ok r =>
                  parseLoop env args nargin fuel nargin seen_in seen_at seen_if
                    func_name class_name lines list_idx cond r.2
              else if condition = "warning" then
                match process_id_list env.who condition args nargin pos1 on_off st with
                | .error e => .error e
                | .ok r =>
                  parseLoop env args nargin fuel nargin seen_in seen_at seen_if
                    func_name class_name lines list_idx cond r.2
              else if condition = "caught" then
                if nargin > pos1 + 1 then
                  match (argAt args (pos1 + 1)).string_value with
                  | .error e => .error e
                  | .ok s2 =>
                    if s2 = "error" then
                      match process_id_list env.who condition args nargin (pos1 + 1) on_off st with
                      | .error e => .error e
                      | .ok r =>
                        parseLoop env args nargin fuel nargin seen_in seen_at seen_if
                          func_name class_name lines list_idx cond r.2
                    else
                      .error (env.who ++ ": invalid condition " ++ condition)
                else
                  .error (env.who ++ ": invalid condition " ++ condition)
              else if condition = "interrupt" then
                parseLoop env args nargin fuel nargin seen_in seen_at seen_if
                  func_name class_name lines list_idx cond
                  { st with debug_on_interrupt := on_off }
              else if condition = "naninf" then
                -- DBSTOP_NANINF is not defined in this build: only a
                -- non-fatal warning is printed; no state changes
                parseLoop env args nargin fuel nargin seen_in seen_at seen_if
                  func_name class_name lines list_idx cond st
              else
                .error (env.who ++ ": invalid condition " ++ condition)
        | .dbstop_none =>
          -- dbstop_none should never occur
          .error (env.who ++ ": internal")
    else
      .ok (⟨func_name, class_name, lines, cond⟩, st)

/-- `bp_table::parse_dbfunction_params`. -/
def parse_dbfunction_params (env : ParseEnv) (args : List OctValue) (st : TrigState) :
    Except String (ParseOut × TrigState) :=
  let nargin := args.length
  match args with
  | [] => .error (env.who ++ ": usage")
  | a :: _ =>
    if a.is_string = false then .error (env.who ++ ": usage")
    else parseLoop env args nargin (nargin + 1) 0 false false false "" "" [] 0 "" st

/-- Stated from the claim's words, for comparison with
`find_fcn_by_line` (claim C6): the first subroutine whose body begins
at or after the requested line. -/
def firstSubBeginningAtOrAfter (m : UCode) (lineno : Int) : Option UCode :=
  (m.subs.map Prod.snd).find? (fun c => decide (lineno ≤ c.beg))

/-- The number of breakpoints a routine's body store holds after
deleting the requested lines (0 for a routine without a body); the
value `remove_breakpoint_1` returns. -/
def remainCount (tbl : TblState) (line : IntMap) (fcn : UCode) : Nat :=
  match fcn.body with
  | none => 0
  | some _ => (deleteLines line (tbl.store fcn.key)).length

/-- The subfunctions `remove_breakpoint` visits: `subfunction_names`
in file-declaration order, resolved through the `subfunctions` map. -/
def sweepList (fcn : UCode) : List UCode :=
  fcn.subNames.filterMap (fun nm => fcn.subs.lookup nm)

/-- Fixture: subfunction `g` of file `f`, spanning lines 15-25, with
an executable line at 20. -/
def exSubG : UCode := .mk 1 15 25 true "f.m" (some [(20, 20)]) [] []

/-- Fixture: top-level function `f`, spanning lines 1-10, with an
executable line at 5, declaring subfunction `g`. -/
def exMainF : UCode := .mk 0 1 10 true "f.m" (some [(5, 5)]) ["g"] [("g", exSubG)]

/-- Fixture: name resolution knowing only the file `f`. -/
def exEnvF : Env := fun fname _cls => if fname = "f" then some exMainF else none

/-- Fixture: the empty table state. -/
def exTbl0 : TblState := ⟨[], fun _ => []⟩

/-- Fixture: table state in which the top-level routine of `f` holds
breakpoints at lines 5, 10 and 15. -/
def exTblC2 : TblState := ⟨["f"], fun k => if k = 0 then [5, 10, 15] else []⟩

/-- Fixture for C3: the two `add_breakpoint` calls (line 5 in the
top-level routine, line 20 in subfunction `g`) followed by
`remove_breakpoint` of line 5. -/
def runC3 : Except String (Nat × TblState) :=
  (add_breakpoint exEnvF specParse "f" "" [(0, 5)] "" exTbl0).bind fun r1 =>
  (add_breakpoint exEnvF specParse "f" "" [(0, 20)] "" r1.2).bind fun r2 =>
  remove_breakpoint exEnvF "f" [(0, 5)] r2.2

/-- Fixture: the table state after the first C3 step (breakpoint at
line 5 of the top-level routine of `f`). -/
def tblC3a : TblState := ⟨["f"], fun k => if k = 0 then [5] else []⟩

/-- Fixture: the table state after the second C3 step (additionally a
breakpoint at line 20 of subfunction `g`). -/
def tblC3b : TblState :=
  ⟨["f"], fun k => if k = 1 then [20] else if k = 0 then [5] else []⟩

/-- Fixture: a subfunction beginning after the top routine ends
(lines 150-200 of file `g`). -/
def exSubLate : UCode := .mk 3 150 200 true "g.m" (some []) [] []

/-- Fixture: top-level function of file `g` spanning lines 10-100,
followed by `exSubLate`. -/
def exMainGap : UCode := .mk 2 10 100 true "g.m" (some []) ["h"] [("h", exSubLate)]

/-- Fixture: a nested function spanning lines 40-60. -/
def exSubNested : UCode := .mk 5 40 60 true "n.m" (some []) [] []

/-- Fixture: top-level function of file `n` spanning lines 1-100 with
the nested function `exSubNested` inside its range. -/
def exMainNested : UCode := .mk 4 1 100 true "n.m" (some []) ["s"] [("s", exSubNested)]

/-- Fixture: routine of file `a`, lines 1-10. -/
def exCodeA : UCode := .mk 6 1 10 true "a.m" (some []) [] []

/-- Fixture: routine of file `b`, lines 1-20. -/
def exCodeB : UCode := .mk 7 1 20 true "b.m" (some []) [] []

/-- Fixture: name resolution knowing the files `a` and `b`. -/
def exEnvAB : Env := fun fname _cls =>
  if fname = "a" then some exCodeA
  else if fname = "b" then some exCodeB
  else none

/-- Fixture: both `a` and `b` hold a breakpoint. -/
def exTblAB : TblState :=
  ⟨["a", "b"], fun k => if k = 6 then [3] else if k = 7 then [4] else []⟩

/-- Decidable equality of `Except` results, for evaluating the
embedding at concrete inputs. -/
instance {ε α : Type} [DecidableEq ε] [DecidableEq α] : DecidableEq (Except ε α) := fun x y =>
  match x, y with
  | .ok a, .ok b =>
    if h : a = b then isTrue (by rw [h]) else isFalse (fun hh => h (Except.ok.inj hh))
  | .error a, .error b =>
    if h : a = b then isTrue (by rw [h]) else isFalse (fun hh => h (Except.error.inj hh))
  | .ok _, .error _ => isFalse (fun hh => Except.noConfusion hh)
  | .error _, .ok _ => isFalse (fun hh => Except.noConfusion hh)

/-- The successful result of `set_stop_flag` for the three condition
words it accepts. -/
def setFlagState (condition : String) (on_off : Bool) (st : TrigState) : TrigState :=
  if condition = "error" then { st with debug_on_error := on_off }
  else if condition = "warning" then { st with debug_on_warning := on_off }
  else { st with debug_on_caught := on_off }

theorem idSetOf_withIdSet (st : TrigState) (c : String) (l : List String) :
    (st.withIdSet c l).idSetOf c = l := by
  unfold TrigState.withIdSet TrigState.idSetOf
  split_ifs <;> rfl

theorem flagOf_withIdSet (st : TrigState) (c : String) (l : List String) :
    (st.withIdSet c l).flagOf c = st.flagOf c := by
  unfold TrigState.withIdSet TrigState.flagOf
  split_ifs <;> rfl

theorem idSetOf_setFlagState (st : TrigState) (c : String) (b : Bool) :
    (setFlagState c b st).idSetOf c = st.idSetOf c := by
  unfold setFlagState TrigState.idSetOf
  split_ifs <;> rfl

theorem flagOf_setFlagState (st : TrigState) (c : String) (b : Bool) :
    (setFlagState c b st).flagOf c = b := by
  unfold setFlagState TrigState.flagOf
  split_ifs <;> rfl

theorem set_stop_flag_eq (who c : String) (b : Bool) (st : TrigState)
    (hc : c = "error" ∨ c = "warning" ∨ c = "caught") :
    set_stop_flag who c b st = .ok (setFlagState c b st) := by
  rcases hc with h | h | h <;> subst h <;> rfl

/-- C1: counterexample.  At the bulk (no-identifier) form of the
error trigger with `active = false` (a `dbclear if error`), starting
from a state whose interrupt flag is `true`, the code sets the
interrupt flag to `false`; the claim says it is left unchanged. -/
theorem C1_counterexample :
    (process_id_list "dbclear" "error" [OctValue.str "error"] 1 0 false
        ⟨[], [], [], true, false, false, true⟩).map (fun p => p.2.debug_on_interrupt)
      = Except.ok false
    ∧ ¬ ((process_id_list "dbclear" "error" [OctValue.str "error"] 1 0 false
        ⟨[], [], [], true, false, false, true⟩).map (fun p => p.2.debug_on_interrupt)
      = Except.ok true) := by
  exact ⟨by decide, by decide⟩

/-- C1 (amended): every bulk (no-identifier) trigger-mutation call on
the error trigger sets the interrupt flag to exactly the given
`active` value: enabling also enables interrupt, and disabling also
disables interrupt (`Vdebug_on_interrupt = on_off` in the unqualified
branch). -/
theorem C1_amended (who : String) (args : List OctValue) (nargin pos : Nat)
    (on_off : Bool) (st : TrigState) (h : nargin = pos + 1) :
    ∃ st2, process_id_list who "error" args nargin pos on_off st = .ok (pos + 1, st2)
      ∧ st2.debug_on_interrupt = on_off ∧ st2.debug_on_error = on_off
      ∧ st2.errors_that_stop = [] := by
  subst h
  simp only [process_id_list, set_stop_flag, TrigState.withIdSet, gt_iff_lt,
    lt_self_iff_false, if_false]
  exact ⟨_, rfl, rfl, rfl, rfl⟩

/-- C1 (witness): the amended statement at a concrete input. -/
theorem C1_witness :
    ∃ st2, process_id_list "dbclear" "error" [OctValue.str "error"] 1 0 false
        ⟨[], [], [], true, false, false, true⟩ = .ok (1, st2)
      ∧ st2.debug_on_interrupt = false ∧ st2.debug_on_error = false
      ∧ st2.errors_that_stop = [] :=
  C1_amended "dbclear" [OctValue.str "error"] 1 0 false
    ⟨[], [], [], true, false, false, true⟩ rfl

/-- C4: for each trigger set (errors, warnings, caught errors), the
identifier-form with `active = true` inserts the identifier and
forces the flag on; the identifier-form with `active = false` erases
it, forces the flag off exactly when the set becomes empty and leaves
the flag unchanged otherwise; the no-identifier form clears the set
and sets the flag to exactly the given `active` value. -/
theorem C4_trigger_upsert (condition : String)
    (hc : condition = "error" ∨ condition = "warning" ∨ condition = "caught")
    (who : String) (st : TrigState) (args : List OctValue) (nargin pos : Nat) (id : String) :
    (argAt args (pos + 1) = OctValue.str id → nargin = pos + 2 →
      ∃ st2, process_id_list who condition args nargin pos true st = .ok (pos + 1, st2)
        ∧ st2.idSetOf condition = setInsert (st.idSetOf condition) id
        ∧ st2.flagOf condition = true)
    ∧ (argAt args (pos + 1) = OctValue.str id → nargin = pos + 2 →
      ∃ st2, process_id_list who condition args nargin pos false st = .ok (pos + 1, st2)
        ∧ st2.idSetOf condition = setErase (st.idSetOf condition) id
        ∧ (st2.idSetOf condition = [] → st2.flagOf condition = false)
        ∧ (st2.idSetOf condition ≠ [] → st2.flagOf condition = st.flagOf condition))
    ∧ (∀ on_off : Bool, nargin = pos + 1 →
      ∃ st2, process_id_list who condition args nargin pos on_off st = .ok (pos + 1, st2)
        ∧ st2.idSetOf condition = [] ∧ st2.flagOf condition = on_off) := by
  have h1 : pos + 1 < pos + 2 := by omega
  have h2 : ¬ (pos + 1 + 1 < pos + 2) := by omega
  refine ⟨?_, ?_, ?_⟩
  · intro ha hn
    subst hn
    refine ⟨setFlagState condition true
      (st.withIdSet condition (setInsert (st.idSetOf condition) id)), ?_, ?_, ?_⟩
    · unfold process_id_list
      simp [ha, OctValue.is_string, OctValue.string_value, h1, h2, Except.map,
        set_stop_flag_eq who condition true _ hc]
    · rw [idSetOf_setFlagState, idSetOf_withIdSet]
    · rw [flagOf_setFlagState]
  · intro ha hn
    subst hn
    by_cases he : setErase (st.idSetOf condition) id = []
    · refine ⟨setFlagState condition false
        (st.withIdSet condition (setErase (st.idSetOf condition) id)), ?_, ?_, ?_, ?_⟩
      · unfold process_id_list
        simp [ha, OctValue.is_string, OctValue.string_value, h1, h2, idSetOf_withIdSet, he,
          Except.map, set_stop_flag_eq who condition false _ hc]
      · rw [idSetOf_setFlagState, idSetOf_withIdSet]
      · intro _; rw [flagOf_setFlagState]
      · intro hne
        exact absurd (by rw [idSetOf_setFlagState, idSetOf_withIdSet, he]) hne
    · refine ⟨st.withIdSet condition (setErase (st.idSetOf condition) id), ?_, ?_, ?_, ?_⟩
      · unfold process_id_list
        simp [ha, OctValue.is_string, OctValue.string_value, h1, h2, idSetOf_withIdSet, he]
      · rw [idSetOf_withIdSet]
      · intro hz
        rw [idSetOf_withIdSet] at hz
        exact absurd hz he
      · intro _; rw [flagOf_withIdSet]
  · intro on_off hn
    subst hn
    by_cases hce : condition = "error"
    · subst hce
      refine ⟨{ setFlagState "error" on_off (st.withIdSet "error" []) with
          debug_on_interrupt := on_off }, ?_, ?_, ?_⟩
      · unfold process_id_list
        simp [set_stop_flag_eq who "error" on_off _ (Or.inl rfl)]
      · simp [TrigState.idSetOf, setFlagState, TrigState.withIdSet]
      · simp [TrigState.flagOf, setFlagState, TrigState.withIdSet]
    · refine ⟨setFlagState condition on_off (st.withIdSet condition []), ?_, ?_, ?_⟩
      · unfold process_id_list
        simp [hce, set_stop_flag_eq who condition on_off _ hc]
      · rw [idSetOf_setFlagState, idSetOf_withIdSet]
      · rw [flagOf_setFlagState]

/-- C4 (witness): the identifier-insert form at a concrete input. -/
theorem C4_witness :
    ∃ st2, process_id_list "dbstop" "warning" [OctValue.str "warning", OctValue.str "b"]
        2 0 true ⟨[], [], ["a"], false, false, true, false⟩ = .ok (1, st2)
      ∧ st2.idSetOf "warning" = setInsert (TrigState.idSetOf ⟨[], [], ["a"], false, false, true, false⟩ "warning") "b"
      ∧ st2.flagOf "warning" = true :=
  (C4_trigger_upsert "warning" (Or.inr (Or.inl rfl)) "dbstop"
    ⟨[], [], ["a"], false, false, true, false⟩ [OctValue.str "warning", OctValue.str "b"]
    2 0 "b").1 rfl rfl

/-- C8: the condition validator accepts the empty condition for every
parser (never invoking it), rejects a single-expression-statement
plain assignment with the message suggesting `==` (concretely `y=5`),
accepts the side-effecting `y+=10` and `y++`, and fails on an
unparsable condition, a null statement list, a multi-statement
condition, and a non-expression statement. -/
theorem C8_condition_validator :
    (∀ p : String → ParseOutcome, condition_valid p "" = .ok true)
    ∧ condition_valid specParse "y=5"
        = .error "dbstop: condition cannot be an assignment.  Did you mean ==?"
    ∧ condition_valid specParse "y+=10" = .ok true
    ∧ condition_valid specParse "y++" = .ok true
    ∧ (∀ (p : String → ParseOutcome) (c : String), 0 < c.length →
        p (c ++ " ;") = .failed →
        condition_valid p c = .error "dbstop: Cannot parse condition")
    ∧ (∀ (p : String → ParseOutcome) (c : String), 0 < c.length →
        p (c ++ " ;") = .noList →
        condition_valid p c = .error "dbstop: condition is not empty, but has nothing to evaluate")
    ∧ (∀ (p : String → ParseOutcome) (c : String) (l : List TreeStmt), 0 < c.length →
        p (c ++ " ;") = .stmts l → l.length ≠ 1 →
        condition_valid p c = .error "dbstop: condition must be an expression")
    ∧ (∀ (p : String → ParseOutcome) (c : String) (s : TreeStmt), 0 < c.length →
        p (c ++ " ;") = .stmts [s] → s.is_expression = false →
        condition_valid p c = .error "dbstop: condition must be an expression")
    ∧ (∀ (p : String → ParseOutcome) (c : String) (e : TreeExpr), 0 < c.length →
        p (c ++ " ;") = .stmts [TreeStmt.expr e] → e.is_assignment_expression = true →
        condition_valid p c
          = .error "dbstop: condition cannot be an assignment.  Did you mean ==?")
    ∧ (∀ (p : String → ParseOutcome) (c : String) (e : TreeExpr), 0 < c.length →
        p (c ++ " ;") = .stmts [TreeStmt.expr e] → e.is_assignment_expression = false →
        condition_valid p c = .ok true) := by
  refine ⟨fun p => rfl, by decide, by decide, by decide, ?_, ?_, ?_, ?_, ?_, ?_⟩
  · intro p c hl hp
    simp [condition_valid, hl, hp]
  · intro p c hl hp
    simp [condition_valid, hl, hp]
  · intro p c l hl hp hlen
    simp only [condition_valid, hl, if_pos, hp]
    match l, hlen with
    | [], _ => rfl
    | [s], h => exact absurd rfl h
    | a :: b :: t, _ => rfl
  · intro p c s hl hp hs
    simp [condition_valid, hl, hp, hs]
  · intro p c e hl hp he
    simp [condition_valid, hl, hp, he, TreeStmt.is_expression, TreeStmt.expression]
  · intro p c e hl hp he
    simp [condition_valid, hl, hp, he, TreeStmt.is_expression, TreeStmt.expression]

/-- C8 (witness): the empty condition and an unparsable condition at
concrete inputs. -/
theorem C8_witness :
    condition_valid specParse "" = .ok true
    ∧ condition_valid specParse "zzz" = .error "dbstop: Cannot parse condition" :=
  ⟨C8_condition_validator.1 specParse,
   C8_condition_validator.2.2.2.2.1 specParse "zzz" (by decide) (by decide)⟩

theorem removeAllLoop_filter (env : Env) :
    ∀ (names : List String) (tbl : TblState),
      (∀ nm ∈ names, ∃ fcn, envFind1 env nm = some fcn ∧ fcn.body ≠ none) →
      ∃ tbl2, removeAllLoop env names tbl = .ok tbl2
        ∧ tbl2.bp_set = tbl.bp_set.filter (fun x => x ∉ names)
  | [], tbl, _ => ⟨tbl, rfl, by simp⟩
  | nm :: rest, tbl, h => by
    obtain ⟨fcn, hf, hb⟩ := h nm (List.mem_cons_self nm rest)
    obtain ⟨bmap, hbm⟩ := Option.ne_none_iff_exists'.mp hb
    obtain ⟨tbl2, he, hset⟩ := removeAllLoop_filter env rest
      { bp_set := setErase tbl.bp_set nm,
        store := fun k => if k = fcn.key then [] else tbl.store k }
      (fun x hx => h x (List.mem_cons_of_mem nm hx))
    refine ⟨tbl2, ?_, ?_⟩
    · simp only [removeAllLoop, remove_all_breakpoints_in_file, hf, hbm, bodyRemoveAll]
      exact he
    · rw [hset]
      simp only [setErase, List.filter_filter]
      apply List.filter_congr
      intro x _
      simp [List.mem_cons, not_or, Bool.and_comm]

/-- C9: for every starting breakpoint-name set whose names resolve to
user code with a body, `remove_all_breakpoints` succeeds (the model
is total, so the loop — which mutates the set it iterates, using the
saved-successor idiom — terminates) and leaves `m_bp_set` empty. -/
theorem C9_remove_all_terminates (env : Env) (tbl : TblState)
    (h : ∀ nm ∈ tbl.bp_set, ∃ fcn, envFind1 env nm = some fcn ∧ fcn.body ≠ none) :
    ∃ tbl2, remove_all_breakpoints env tbl = .ok tbl2 ∧ tbl2.bp_set = [] := by
  obtain ⟨tbl2, he, hset⟩ := removeAllLoop_filter env tbl.bp_set tbl h
  refine ⟨tbl2, he, ?_⟩
  rw [hset]
  exact List.filter_eq_nil_iff.mpr (fun a ha => by simp [ha])

/-- C9 (witness): the theorem at a concrete two-file state. -/
theorem C9_witness :
    ∃ tbl2, remove_all_breakpoints exEnvAB exTblAB = .ok tbl2 ∧ tbl2.bp_set = [] :=
  C9_remove_all_terminates exEnvAB exTblAB (by
    intro nm hnm
    simp only [exTblAB, List.mem_cons, List.not_mem_nil, or_false] at hnm
    rcases hnm with h | h <;> subst h
    · exact ⟨exCodeA, rfl, by simp [exCodeA, UCode.body]⟩
    · exact ⟨exCodeB, rfl, by simp [exEnvAB, exCodeB, UCode.body]⟩)

theorem deleteOne_nil (line : IntMap) (i : Nat) : deleteOne line [] i = [] := by
  unfold deleteOne
  cases h : line.lookup (Int.ofNat i) <;> simp

theorem deleteLines_nil (line : IntMap) : deleteLines line [] = [] := by
  unfold deleteLines
  generalize List.range line.length = idxs
  induction idxs with
  | nil => rfl
  | cons i t ih => rw [List.foldl_cons, deleteOne_nil]; exact ih

theorem remainCount_congr (tbl tbl2 : TblState) (line : IntMap) (fcn : UCode)
    (h : tbl2.store fcn.key = tbl.store fcn.key) :
    remainCount tbl2 line fcn = remainCount tbl line fcn := by
  unfold remainCount
  cases fcn.body <;> simp [h]

theorem remove_breakpoint_1_eq (fcn : UCode) (fname : String) (line : IntMap) (tbl : TblState) :
    (remove_breakpoint_1 fcn fname line tbl).1 = remainCount tbl line fcn
    ∧ ∀ k, k ≠ fcn.key → (remove_breakpoint_1 fcn fname line tbl).2.store k = tbl.store k := by
  rcases hb : fcn.body with _ | bmap
  · simp [remove_breakpoint_1, remainCount, hb]
  · by_cases h : (tbl.store fcn.key).length > 0
    · refine ⟨?_, ?_⟩
      · simp [remove_breakpoint_1, remainCount, hb, h]
      · intro k hk
        simp [remove_breakpoint_1, hb, h, hk]
    · have hz : tbl.store fcn.key = [] := List.length_eq_zero.mp (by omega)
      refine ⟨?_, ?_⟩
      · simp [remove_breakpoint_1, remainCount, hb, h, hz, deleteLines_nil]
      · intro k hk
        simp [remove_breakpoint_1, hb, h]

theorem removeSubLoop_sum (fname : String) (line : IntMap) (subs : List (String × UCode)) :
    ∀ (names : List String) (acc : Nat) (tbl : TblState),
      ((names.filterMap (fun nm => subs.lookup nm)).map UCode.key).Nodup →
      (removeSubLoop fname line subs names acc tbl).1
        = acc + ((names.filterMap (fun nm => subs.lookup nm)).map (remainCount tbl line)).sum
      ∧ ∀ k, k ∉ (names.filterMap (fun nm => subs.lookup nm)).map UCode.key →
          (removeSubLoop fname line subs names acc tbl).2.store k = tbl.store k
  | [], acc, tbl, _ => by simp [removeSubLoop]
  | nm :: rest, acc, tbl, hnd => by
    rcases hl : subs.lookup nm with _ | g
    · have hfm : (nm :: rest).filterMap (fun x => subs.lookup x)
          = rest.filterMap (fun x => subs.lookup x) := by
        simp [List.filterMap_cons, hl]
      rw [hfm] at hnd ⊢
      have ih := removeSubLoop_sum fname line subs rest acc tbl hnd
      simpa [removeSubLoop, hl] using ih
    · have hfm : (nm :: rest).filterMap (fun x => subs.lookup x)
          = g :: rest.filterMap (fun x => subs.lookup x) := by
        simp [List.filterMap_cons, hl]
      rw [hfm] at hnd ⊢
      rw [List.map_cons, List.nodup_cons] at hnd
      obtain ⟨hgk, hnd2⟩ := hnd
      obtain ⟨h1, h2⟩ := remove_breakpoint_1_eq g fname line tbl
      set tbl1 := (remove_breakpoint_1 g fname line tbl).2 with htbl1
      have ih := removeSubLoop_sum fname line subs rest (acc + (remove_breakpoint_1 g fname line tbl).1) tbl1 hnd2
      obtain ⟨ihs, ihp⟩ := ih
      have hmaps : (rest.filterMap (fun x => subs.lookup x)).map (remainCount tbl1 line)
          = (rest.filterMap (fun x => subs.lookup x)).map (remainCount tbl line) := by
        apply List.map_congr_left
        intro g2 hg2
        apply remainCount_congr
        apply h2
        intro hkeq
        exact hgk (hkeq ▸ List.mem_map_of_mem UCode.key hg2)
      constructor
      · show (removeSubLoop fname line subs (nm :: rest) acc tbl).1 = _
        rw [show removeSubLoop fname line subs (nm :: rest) acc tbl
            = removeSubLoop fname line subs rest (acc + (remove_breakpoint_1 g fname line tbl).1) tbl1 by
          simp [removeSubLoop, hl]]
        rw [ihs, hmaps, h1]
        simp [List.sum_cons]
        omega
      · intro k hk
        rw [List.map_cons, List.mem_cons] at hk
        push_neg at hk
        rw [show removeSubLoop fname line subs (nm :: rest) acc tbl
            = removeSubLoop fname line subs rest (acc + (remove_breakpoint_1 g fname line tbl).1) tbl1 by
          simp [removeSubLoop, hl]]
        rw [ihp k hk.2]
        exact h2 k hk.1

/-- C2: counterexample.  File `f` holds breakpoints at lines 5, 10
and 15; `remove_breakpoint (f, [5])` removes one breakpoint (the
store shrinks from 3 entries to 2) but returns 2 — the number of
breakpoints remaining, not the number removed. -/
theorem C2_counterexample :
    (remove_breakpoint exEnvF "f" [(0, 5)] exTblC2).map
        (fun p => (p.1, (exTblC2.store 0).length - ((p.2.store 0).length)))
      = Except.ok (2, 1)
    ∧ (2 : Nat) ≠ 1 := by
  exact ⟨by decide, by decide⟩

/-- C2 (amended): for every `remove_breakpoint (name, lines)` call
with non-empty `lines` and a resolvable name, the returned integer
equals the total number of breakpoints REMAINING after the deletions
— per routine, the size of its breakpoint list after removing the
requested lines — summed over the top-level routine and the
subfunctions scanned in file-declaration order (not the number
removed). -/
theorem C2_amended (env : Env) (fname : String) (line : IntMap) (tbl : TblState) (fcn : UCode)
    (hlen : line.length ≠ 0)
    (hf : envFind1 env fname = some fcn)
    (hkeys : ((fcn :: sweepList fcn).map UCode.key).Nodup) :
    ∃ tbl2, remove_breakpoint env fname line tbl
      = .ok (((fcn :: sweepList fcn).map (remainCount tbl line)).sum, tbl2) := by
  rw [List.map_cons, List.nodup_cons] at hkeys
  obtain ⟨hfk, hnd⟩ := hkeys
  obtain ⟨h1, h2⟩ := remove_breakpoint_1_eq fcn fname line tbl
  set tbl1 := (remove_breakpoint_1 fcn fname line tbl).2 with htbl1
  obtain ⟨hsum, _⟩ := removeSubLoop_sum fname line fcn.subs fcn.subNames
    (remove_breakpoint_1 fcn fname line tbl).1 tbl1 hnd
  have hmaps : (sweepList fcn).map (remainCount tbl1 line)
      = (sweepList fcn).map (remainCount tbl line) := by
    apply List.map_congr_left
    intro g hg
    apply remainCount_congr
    apply h2
    intro hkeq
    exact hfk (hkeq ▸ List.mem_map_of_mem UCode.key hg)
  refine ⟨(removeSubLoop fname line fcn.subs fcn.subNames
      (remove_breakpoint_1 fcn fname line tbl).1 tbl1).2, ?_⟩
  have hrun : remove_breakpoint env fname line tbl
      = .ok (removeSubLoop fname line fcn.subs fcn.subNames
          (remove_breakpoint_1 fcn fname line tbl).1 tbl1) := by
    simp [remove_breakpoint, hlen, hf]
  rw [hrun]
  have : (removeSubLoop fname line fcn.subs fcn.subNames
      (remove_breakpoint_1 fcn fname line tbl).1 tbl1).1
      = ((fcn :: sweepList fcn).map (remainCount tbl line)).sum := by
    rw [hsum]
    unfold sweepList at hmaps ⊢
    rw [hmaps, h1, List.map_cons, List.sum_cons]
  rw [← this]

/-- C2 (witness): the amended statement at the concrete three-
breakpoint state of the counterexample. -/
theorem C2_witness :
    ∃ tbl2, remove_breakpoint exEnvF "f" [(0, 5)] exTblC2
      = .ok (((exMainF :: sweepList exMainF).map (remainCount exTblC2 [(0, 5)])).sum, tbl2) :=
  C2_amended exEnvF "f" [(0, 5)] exTblC2 exMainF (by decide) rfl (by decide)

theorem nodes_def (k : Nat) (b e : Int) (u : Bool) (f : String)
    (bd : Option (List (Int × Int))) (nms : List String) (subs : List (String × UCode)) :
    (UCode.mk k b e u f bd nms subs).nodes
      = UCode.mk k b e u f bd nms subs :: nodesList subs := by
  rw [UCode.nodes]

theorem mem_nodes_self (r : UCode) : r ∈ r.nodes := by
  rcases r with ⟨k, b, e, u, f, bd, nms, subs⟩
  rw [nodes_def]
  exact List.mem_cons_self _ _

theorem mem_nodesList {d : UCode} : ∀ {subs : List (String × UCode)},
    d ∈ nodesList subs ↔ ∃ p ∈ subs, d ∈ p.2.nodes := by
  intro subs
  induction subs with
  | nil => simp [nodesList]
  | cons p rest ih =>
    rcases p with ⟨nm, c⟩
    rw [nodesList]
    simp only [List.mem_append, ih, List.mem_cons]
    constructor
    · rintro (h | ⟨q, hq, hdq⟩)
      · exact ⟨(nm, c), Or.inl rfl, h⟩
      · exact ⟨q, Or.inr hq, hdq⟩
    · rintro ⟨q, hq | hq, hdq⟩
      · subst hq; exact Or.inl hdq
      · exact Or.inr ⟨q, hq, hdq⟩

theorem swf_nodes_range {c : UCode} (hswf : SWf c) :
    ∀ d ∈ c.nodes, c.beg ≤ d.beg ∧ d.endl ≤ c.endl := by
  induction hswf with
  | intro k b e u f bd nms subs hbe hemax hpw hins hall ih =>
    intro d hd
    rw [nodes_def, List.mem_cons] at hd
    rcases hd with rfl | hd
    · exact ⟨le_refl _, le_refl _⟩
    · rw [mem_nodesList] at hd
      obtain ⟨p, hp, hdp⟩ := hd
      have hc : p.2 ∈ subs.map Prod.snd := List.mem_map_of_mem Prod.snd hp
      obtain ⟨hbegle, hendle⟩ := (hins p.2 hc).2
      obtain ⟨hb2, he2⟩ := ih p.2 hc d hdp
      exact ⟨le_trans hbegle hb2, le_trans he2 hendle⟩

theorem swf_contains_up {c d : UCode} {l : Int} (hswf : SWf c) (hd : d ∈ c.nodes)
    (hc : containsL d l) : containsL c l := by
  obtain ⟨h1, h2⟩ := swf_nodes_range hswf d hd
  obtain ⟨h3, h4⟩ := hc
  exact ⟨le_trans h1 h3, le_trans h4 h2⟩

theorem disj_not_both {a c : UCode} {l : Int} (hd : DisjR a c)
    (ha : containsL a l) (hc : containsL c l) : False := by
  obtain ⟨ha1, ha2⟩ := ha
  obtain ⟨hc1, hc2⟩ := hc
  rcases hd with h | h <;> omega

theorem findLoop_no_hit (l : Int) :
    ∀ (subs : List (String × UCode)) (rv nf : Option UCode) (ee : Int),
      (∀ c ∈ subs.map Prod.snd, c.isUF = true → ¬ containsL c l) →
      (findLoop l subs rv nf ee).1 = rv ∧ (findLoop l subs rv nf ee).2.2 = ee
  | [], rv, nf, ee, _ => by rw [findLoop.eq_def]; exact ⟨rfl, rfl⟩
  | (nm, c) :: rest, rv, nf, ee, h => by
    by_cases hu : c.isUF = true
    · have hnc : ¬ containsL c l := h c (by simp) hu
      have hcond : ¬ (c.endl < ee ∧ c.endl ≥ l ∧ c.beg ≤ l) := by
        rintro ⟨_, h2, h3⟩; exact hnc ⟨h3, h2⟩
      rw [findLoop.eq_def]
      simp only [hu, if_true, if_neg hcond]
      exact findLoop_no_hit l rest rv _ ee (fun c2 hc2 => h c2 (by simp [hc2]))
    · rw [findLoop.eq_def]
      simp only [hu, if_false]
      exact findLoop_no_hit l rest rv nf ee (fun c2 hc2 => h c2 (by simp [hc2]))

theorem findLoop_hit (l : Int) (c : UCode) (nm : String)
    (hu : c.isUF = true) (hcl : containsL c l) (hce : c.endl < intMax) :
    ∀ (pre post : List (String × UCode)) (nf : Option UCode),
      (∀ c2 ∈ pre.map Prod.snd, c2.isUF = true → ¬ containsL c2 l) →
      (∀ c2 ∈ post.map Prod.snd, c2.isUF = true → ¬ containsL c2 l) →
      (findLoop l (pre ++ (nm, c) :: post) none nf intMax).1 = (find_fcn_by_line c l).1
      ∧ (findLoop l (pre ++ (nm, c) :: post) none nf intMax).2.2
          = min c.endl (find_fcn_by_line c l).2
  | [], post, nf, _, hpost => by
    have hcond : c.endl < intMax ∧ c.endl ≥ l ∧ c.beg ≤ l := ⟨hce, hcl.2, hcl.1⟩
    rw [List.nil_append, findLoop.eq_def]
    simp only [hu, if_true, if_pos hcond]
    exact findLoop_no_hit l post _ _ _ hpost
  | (nm2, c2) :: pre, post, nf, hpre, hpost => by
    by_cases hu2 : c2.isUF = true
    · have hnc : ¬ containsL c2 l := hpre c2 (by simp) hu2
      have hcond : ¬ (c2.endl < intMax ∧ c2.endl ≥ l ∧ c2.beg ≤ l) := by
        rintro ⟨_, ha, hb⟩; exact hnc ⟨hb, ha⟩
      rw [List.cons_append, findLoop.eq_def]
      simp only [hu2, if_true, if_neg hcond]
      exact findLoop_hit l c nm hu hcl hce pre post _
        (fun x hx => hpre x (by simp [hx])) hpost
    · rw [List.cons_append, findLoop.eq_def]
      simp only [hu2, if_false]
      exact findLoop_hit l c nm hu hcl hce pre post nf
        (fun x hx => hpre x (by simp [hx])) hpost

theorem find_fcn_step (k : Nat) (b e : Int) (u : Bool) (f : String)
    (bd : Option (List (Int × Int))) (nms : List String) (subs : List (String × UCode))
    (l : Int) :
    find_fcn_by_line (UCode.mk k b e u f bd nms subs) l
      = ((if u then
            (match (if e ≥ l ∧ e < (findLoop l subs none none intMax).2.2
                    then some (UCode.mk k b e u f bd nms subs)
                    else (findLoop l subs none none intMax).1) with
             | none => (findLoop l subs none none intMax).2.1
             | some w => some w)
          else
            (match (findLoop l subs none none intMax).1 with
             | none => some (UCode.mk k b e u f bd nms subs)
             | some w => some w)),
         (findLoop l subs none none intMax).2.2) := by
  rw [find_fcn_by_line.eq_def]

theorem find_uf_sub (k : Nat) (b e : Int) (f : String)
    (bd : Option (List (Int × Int))) (nms : List String) (subs : List (String × UCode))
    (l E : Int) (w : UCode)
    (h1 : (findLoop l subs none none intMax).1 = some w)
    (h2 : (findLoop l subs none none intMax).2.2 = E)
    (hcond : ¬ (e ≥ l ∧ e < E)) :
    (find_fcn_by_line (UCode.mk k b e true f bd nms subs) l).1 = some w := by
  rw [find_fcn_step]
  simp only [h1, h2, if_true, if_neg hcond]

theorem find_uf_self (k : Nat) (b e : Int) (f : String)
    (bd : Option (List (Int × Int))) (nms : List String) (subs : List (String × UCode))
    (l E : Int)
    (h2 : (findLoop l subs none none intMax).2.2 = E)
    (hcond : e ≥ l ∧ e < E) :
    (find_fcn_by_line (UCode.mk k b e true f bd nms subs) l).1
      = some (UCode.mk k b e true f bd nms subs) := by
  rw [find_fcn_step]
  simp only [h2, if_true, if_pos hcond]

theorem find_uf_gap (k : Nat) (b e : Int) (f : String)
    (bd : Option (List (Int × Int))) (nms : List String) (subs : List (String × UCode))
    (l E : Int)
    (h1 : (findLoop l subs none none intMax).1 = none)
    (h2 : (findLoop l subs none none intMax).2.2 = E)
    (hcond : ¬ (e ≥ l ∧ e < E)) :
    (find_fcn_by_line (UCode.mk k b e true f bd nms subs) l).1
      = (findLoop l subs none none intMax).2.1 := by
  rw [find_fcn_step]
  simp only [h1, h2, if_true, if_neg hcond]

theorem find_script (k : Nat) (b e : Int) (f : String)
    (bd : Option (List (Int × Int))) (nms : List String) (subs : List (String × UCode))
    (l : Int)
    (h1 : (findLoop l subs none none intMax).1 = none) :
    (find_fcn_by_line (UCode.mk k b e false f bd nms subs) l).1
      = some (UCode.mk k b e false f bd nms subs) := by
  rw [find_fcn_step]
  simp only [h1, Bool.false_eq_true, if_false]

theorem find_swf {r : UCode} (hswf : SWf r) :
    ∀ l : Int, r.isUF = true → containsL r l →
      ∃ w, (find_fcn_by_line r l).1 = some w ∧ w ∈ r.nodes ∧ containsL w l
        ∧ ∀ d ∈ r.nodes, containsL d l → w.endl ≤ d.endl := by
  induction hswf with
  | intro k b e u f bd nms subs hbe hemax hpw hins hall ih =>
    intro l hu hcl
    have hue : u = true := hu
    subst hue
    by_cases hex : ∃ c ∈ subs.map Prod.snd, containsL c l
    · obtain ⟨c, hcmem, hcc⟩ := hex
      obtain ⟨p, hp, hpc⟩ := List.mem_map.mp hcmem
      obtain ⟨pre, post, hsplit⟩ := List.append_of_mem hp
      subst hsplit
      rcases p with ⟨nm, c2⟩
      have hc2c : c2 = c := hpc
      subst hc2c
      have hcuf : c2.isUF = true := (hins c2 hcmem).1
      have hcin := (hins c2 hcmem).2
      have hce2 : c2.endl ≤ e := hcin.2
      have hce : c2.endl < intMax := lt_of_le_of_lt hce2 hemax
      have hmap : (pre ++ (nm, c2) :: post).map Prod.snd
          = pre.map Prod.snd ++ c2 :: post.map Prod.snd := by simp
      rw [hmap, List.pairwise_append] at hpw
      obtain ⟨_, hpwc, hcross⟩ := hpw
      rw [List.pairwise_cons] at hpwc
      obtain ⟨hcpost, _⟩ := hpwc
      have hpre : ∀ x ∈ pre.map Prod.snd, ¬ containsL x l :=
        fun x hx hcont => disj_not_both (hcross x hx c2 (List.mem_cons_self _ _)) hcont hcc
      have hpost : ∀ x ∈ post.map Prod.snd, ¬ containsL x l :=
        fun x hx hcont => disj_not_both (hcpost x hx) hcc hcont
      obtain ⟨hl1, hl2⟩ := findLoop_hit l c2 nm hcuf hcc hce pre post none
        (fun x hx _ => hpre x hx) (fun x hx _ => hpost x hx)
      obtain ⟨w, hw1, hw2, hw3, hw4⟩ := ih c2 hcmem l hcuf hcc
      rw [hw1] at hl1
      have hwend : w.endl ≤ c2.endl := hw4 c2 (mem_nodes_self c2) hcc
      have hcond : ¬ (e ≥ l ∧ e < min c2.endl (find_fcn_by_line c2 l).2) := by
        rintro ⟨_, hlt⟩
        have hmle := min_le_left c2.endl (find_fcn_by_line c2 l).2
        omega
      refine ⟨w, find_uf_sub k b e f bd nms _ l _ w hl1 hl2 hcond, ?_, hw3, ?_⟩
      · rw [nodes_def, List.mem_cons]
        right
        rw [mem_nodesList]
        exact ⟨(nm, c2), by simp, hw2⟩
      · intro d hd hdc
        rw [nodes_def, List.mem_cons] at hd
        rcases hd with rfl | hd
        · exact le_trans hwend hce2
        · rw [mem_nodesList] at hd
          obtain ⟨q, hq, hdq⟩ := hd
          have hqm : q.2 ∈ (pre ++ (nm, c2) :: post).map Prod.snd :=
            List.mem_map_of_mem Prod.snd hq
          have hq2cont : containsL q.2 l := swf_contains_up (hall q.2 hqm) hdq hdc
          have hqm2 := hqm
          rw [hmap, List.mem_append, List.mem_cons] at hqm2
          rcases hqm2 with hin | heq | hin
          · exact absurd hq2cont (hpre q.2 hin)
          · rw [heq] at hdq
            exact hw4 d hdq hdc
          · exact absurd hq2cont (hpost q.2 hin)
    · push_neg at hex
      obtain ⟨hl1, hl2⟩ := findLoop_no_hit l subs none none intMax
        (fun x hx _ => hex x hx)
      have hcond : e ≥ l ∧ e < intMax := ⟨hcl.2, hemax⟩
      refine ⟨UCode.mk k b e true f bd nms subs,
        find_uf_self k b e f bd nms subs l intMax hl2 hcond, mem_nodes_self _, hcl, ?_⟩
      intro d hd hdc
      rw [nodes_def, List.mem_cons] at hd
      rcases hd with rfl | hd
      · exact le_refl _
      · rw [mem_nodesList] at hd
        obtain ⟨q, hq, hdq⟩ := hd
        have hqm : q.2 ∈ subs.map Prod.snd := List.mem_map_of_mem Prod.snd hq
        exact absurd (swf_contains_up (hall q.2 hqm) hdq hdc) (hex q.2 hqm)

theorem swf_bounds {c : UCode} (h : SWf c) : c.beg ≤ c.endl ∧ c.endl < intMax := by
  cases h with
  | intro k b e u f bd nms subs hbe hemax hpw hins hall => exact ⟨hbe, hemax⟩

/-- C5: for a well-formed top-level user function, whenever some
(sub)routine's declared range contains the requested line,
`find_fcn_by_line` returns a containing (sub)routine whose ending
line is minimal among all containing routines of the tree (the
innermost one, ties broken by smallest end); and a script (which the
parser gives no subfunctions) is returned for every line. -/
theorem C5_line_resolver (m : UCode) (l : Int) (hwf : TopWf m) :
    (m.isUF = true → (∃ d ∈ m.nodes, containsL d l) →
      ∃ w, (find_fcn_by_line m l).1 = some w ∧ w ∈ m.nodes ∧ containsL w l
        ∧ ∀ d ∈ m.nodes, containsL d l → w.endl ≤ d.endl)
    ∧ (m.isUF = false → m.subs = [] → (find_fcn_by_line m l).1 = some m) := by
  obtain ⟨hbe, hemax, hpw, hch⟩ := hwf
  rcases m with ⟨k, b, e, u, f, bd, nms, subs⟩
  simp only [UCode.beg, UCode.endl, UCode.isUF, UCode.subs] at hbe hemax hpw hch
  constructor
  · intro hu hex
    have hue : u = true := hu
    subst hue
    by_cases hexc : ∃ c ∈ subs.map Prod.snd, containsL c l
    · obtain ⟨c, hcmem, hcc⟩ := hexc
      obtain ⟨p, hp, hpc⟩ := List.mem_map.mp hcmem
      obtain ⟨pre, post, hsplit⟩ := List.append_of_mem hp
      subst hsplit
      rcases p with ⟨nm, c2⟩
      have hc2c : c2 = c := hpc
      subst hc2c
      have hcuf : c2.isUF = true := (hch c2 hcmem).1
      have hcswf : SWf c2 := (hch c2 hcmem).2.2
      have hce : c2.endl < intMax := (swf_bounds hcswf).2
      have hmap : (pre ++ (nm, c2) :: post).map Prod.snd
          = pre.map Prod.snd ++ c2 :: post.map Prod.snd := by simp
      rw [hmap, List.pairwise_append] at hpw
      obtain ⟨_, hpwc, hcross⟩ := hpw
      rw [List.pairwise_cons] at hpwc
      obtain ⟨hcpost, _⟩ := hpwc
      have hpre : ∀ x ∈ pre.map Prod.snd, ¬ containsL x l :=
        fun x hx hcont => disj_not_both (hcross x hx c2 (List.mem_cons_self _ _)) hcont hcc
      have hpost : ∀ x ∈ post.map Prod.snd, ¬ containsL x l :=
        fun x hx hcont => disj_not_both (hcpost x hx) hcc hcont
      obtain ⟨hl1, hl2⟩ := findLoop_hit l c2 nm hcuf hcc hce pre post none
        (fun x hx _ => hpre x hx) (fun x hx _ => hpost x hx)
      obtain ⟨w, hw1, hw2, hw3, hw4⟩ := find_swf hcswf l hcuf hcc
      rw [hw1] at hl1
      have hwend : w.endl ≤ c2.endl := hw4 c2 (mem_nodes_self c2) hcc
      have hcond : ¬ (e ≥ l ∧ e < min c2.endl (find_fcn_by_line c2 l).2) := by
        rcases (hch c2 hcmem).2.1 with hin | hafter
        · rintro ⟨_, hlt⟩
          have hce2 : c2.endl ≤ e := hin.2
          have hmle := min_le_left c2.endl (find_fcn_by_line c2 l).2
          omega
        · rintro ⟨hge, _⟩
          have hcb : c2.beg ≤ l := hcc.1
          have : e < c2.beg := hafter
          omega
      refine ⟨w, find_uf_sub k b e f bd nms _ l _ w hl1 hl2 hcond, ?_, hw3, ?_⟩
      · rw [nodes_def, List.mem_cons]
        right
        rw [mem_nodesList]
        exact ⟨(nm, c2), by simp, hw2⟩
      · intro d hd hdc
        rw [nodes_def, List.mem_cons] at hd
        rcases hd with rfl | hd
        · rcases (hch c2 hcmem).2.1 with hin | hafter
          · exact le_trans hwend hin.2
          · have hl2e : l ≤ e := hdc.2
            have hcb : c2.beg ≤ l := hcc.1
            have : e < c2.beg := hafter
            omega
        · rw [mem_nodesList] at hd
          obtain ⟨q, hq, hdq⟩ := hd
          have hqm : q.2 ∈ (pre ++ (nm, c2) :: post).map Prod.snd :=
            List.mem_map_of_mem Prod.snd hq
          have hq2cont : containsL q.2 l :=
            swf_contains_up ((hch q.2 hqm).2.2) hdq hdc
          have hqm2 := hqm
          rw [hmap, List.mem_append, List.mem_cons] at hqm2
          rcases hqm2 with hin | heq | hin
          · exact absurd hq2cont (hpre q.2 hin)
          · rw [heq] at hdq
            exact hw4 d hdq hdc
          · exact absurd hq2cont (hpost q.2 hin)
    · push_neg at hexc
      have hcl : containsL (UCode.mk k b e true f bd nms subs) l := by
        obtain ⟨d, hd, hdc⟩ := hex
        rw [nodes_def, List.mem_cons] at hd
        rcases hd with rfl | hd
        · exact hdc
        · rw [mem_nodesList] at hd
          obtain ⟨q, hq, hdq⟩ := hd
          have hqm : q.2 ∈ subs.map Prod.snd := List.mem_map_of_mem Prod.snd hq
          exact absurd (swf_contains_up ((hch q.2 hqm).2.2) hdq hdc) (hexc q.2 hqm)
      obtain ⟨hl1, hl2⟩ := findLoop_no_hit l subs none none intMax
        (fun x hx _ => hexc x hx)
      have hcond : e ≥ l ∧ e < intMax := ⟨hcl.2, hemax⟩
      refine ⟨UCode.mk k b e true f bd nms subs,
        find_uf_self k b e f bd nms subs l intMax hl2 hcond, mem_nodes_self _, hcl, ?_⟩
      intro d hd hdc
      rw [nodes_def, List.mem_cons] at hd
      rcases hd with rfl | hd
      · exact le_refl _
      · rw [mem_nodesList] at hd
        obtain ⟨q, hq, hdq⟩ := hd
        have hqm : q.2 ∈ subs.map Prod.snd := List.mem_map_of_mem Prod.snd hq
        exact absurd (swf_contains_up ((hch q.2 hqm).2.2) hdq hdc) (hexc q.2 hqm)
  · intro hu hsubs
    have hue : u = false := hu
    subst hue
    have hs : subs = [] := hsubs
    subst hs
    exact find_script k b e f bd nms [] l (by rw [findLoop.eq_def])

/-- C5 (witness): the resolver at line 50 of a function spanning
lines 1-100 with a nested function spanning 40-60 returns the nested
function (minimal ending line among the containing routines). -/
theorem C5_witness :
    ∃ w, (find_fcn_by_line exMainNested 50).1 = some w ∧ w ∈ exMainNested.nodes
      ∧ containsL w 50
      ∧ ∀ d ∈ exMainNested.nodes, containsL d 50 → w.endl ≤ d.endl := by
  have hswf : SWf exSubNested :=
    SWf.intro 5 40 60 true "n.m" (some []) [] []
      (by decide) (by decide) (by simp) (by simp) (by simp)
  have htop : TopWf exMainNested := by
    refine ⟨by decide, by decide, by simp [exMainNested, UCode.subs], ?_⟩
    intro c hc
    simp only [exMainNested, UCode.subs, List.map_cons, List.map_nil,
      List.mem_singleton] at hc
    subst hc
    exact ⟨rfl, Or.inl (by decide), hswf⟩
  have hmem : exSubNested ∈ exMainNested.nodes := by
    show exSubNested ∈ (UCode.mk 4 1 100 true "n.m" (some []) ["s"]
      [("s", exSubNested)]).nodes
    rw [nodes_def, List.mem_cons]
    right
    rw [mem_nodesList]
    exact ⟨("s", exSubNested), by simp, mem_nodes_self _⟩
  exact (C5_line_resolver exMainNested 50 htop).1 rfl ⟨exSubNested, hmem, by decide⟩

theorem nodesList_nil : nodesList [] = [] := by rw [nodesList]

theorem nodesList_cons (nm : String) (c : UCode) (rest : List (String × UCode)) :
    nodesList ((nm, c) :: rest) = c.nodes ++ nodesList rest := by rw [nodesList]

theorem findLoop_next (l : Int) :
    ∀ (subs : List (String × UCode)) (rv nf : Option UCode) (ee : Int),
      (∀ c ∈ subs.map Prod.snd, c.isUF = true → ¬ containsL c l) →
      (findLoop l subs rv nf ee).2.1
        = (match nf with
           | some w => some w
           | none => (subs.map Prod.snd).find? (fun c => c.isUF && decide (l ≤ c.beg)))
  | [], rv, nf, ee, _ => by
    rw [findLoop.eq_def]
    cases nf <;> simp
  | (nm, c) :: rest, rv, nf, ee, h => by
    have hrest : ∀ x ∈ rest.map Prod.snd, x.isUF = true → ¬ containsL x l :=
      fun x hx => h x (by simp [hx])
    by_cases hu : c.isUF = true
    · have hnc : ¬ containsL c l := h c (by simp) hu
      have hcond : ¬ (c.endl < ee ∧ c.endl ≥ l ∧ c.beg ≤ l) := by
        rintro ⟨_, h2, h3⟩; exact hnc ⟨h3, h2⟩
      rw [findLoop.eq_def]
      simp only [hu, if_true, if_neg hcond]
      by_cases hb : l ≤ c.beg
      · rw [if_pos hb]
        cases nf with
        | none =>
          rw [findLoop_next l rest rv (some c) ee hrest]
          simp [List.find?, hu, decide_eq_true hb]
        | some w =>
          rw [findLoop_next l rest rv (some w) ee hrest]
      · rw [if_neg hb]
        cases nf with
        | none =>
          rw [findLoop_next l rest rv none ee hrest]
          simp [List.find?, hu, decide_eq_false hb]
        | some w =>
          rw [findLoop_next l rest rv (some w) ee hrest]
    · rw [findLoop.eq_def]
      simp only [hu, Bool.false_eq_true, if_false]
      rw [findLoop_next l rest rv nf ee hrest]
      cases nf with
      | none =>
        have hcu : c.isUF = false := by
          cases hcu2 : c.isUF
          · rfl
          · exact absurd hcu2 hu
        simp [List.find?, hcu]
      | some w => rfl

theorem exMainGap_nodes : exMainGap.nodes = [exMainGap, exSubLate] := by
  have h2 : exSubLate.nodes = [exSubLate] := by
    show (UCode.mk 3 150 200 true "g.m" (some []) [] []).nodes = _
    rw [nodes_def, nodesList_nil]
    rfl
  show (UCode.mk 2 10 100 true "g.m" (some []) ["h"] [("h", exSubLate)]).nodes = _
  rw [nodes_def, nodesList_cons, h2, nodesList_nil]
  rfl

/-- C6: counterexample.  The top routine of file `g` spans lines
10-100 and its subfunction spans 150-200.  Line 5 is contained in no
routine's range (it precedes the top routine's beginning), so the
claim says the resolver returns the first subroutine beginning at or
after line 5 — the subfunction — but the code returns the top-level
routine, because its main-function check compares only the ending
line (`e >= lineno`) and ignores the beginning line. -/
theorem C6_counterexample :
    exMainGap.isUF = true
    ∧ (∀ d ∈ exMainGap.nodes, ¬ containsL d 5)
    ∧ firstSubBeginningAtOrAfter exMainGap 5 = some exSubLate
    ∧ (find_fcn_by_line exMainGap 5).1 = some exMainGap
    ∧ some exMainGap ≠ some exSubLate := by
  refine ⟨rfl, ?_, rfl, ?_, ?_⟩
  · rw [exMainGap_nodes]
    intro d hd
    rcases List.mem_cons.mp hd with rfl | hd
    · decide
    · rcases List.mem_cons.mp hd with rfl | hd
      · decide
      · exact absurd hd (List.not_mem_nil d)
  · simp [find_fcn_by_line, findLoop, exMainGap, exSubLate, UCode.isUF, UCode.beg,
      UCode.endl, intMax]
  · intro h
    have h2 := Option.some.inj h
    simp only [exMainGap, exSubLate, UCode.mk.injEq] at h2
    exact absurd h2.1 (by decide)

/-- C6 (amended): for every top-level user function and requested
line strictly beyond the top routine's ending line that no
(sub)routine's range contains, the resolver returns the first
user-function subroutine, in subfunction-map iteration order, whose
beginning line is at or after the requested line (none when there is
none).  For a line that merely precedes the top routine's beginning
the code returns the top-level routine instead (see the
counterexample): the code's fallback check compares the requested
line only against the top routine's ending line. -/
theorem C6_amended (m : UCode) (l : Int)
    (hu : m.isUF = true) (hend : m.endl < l)
    (hnone : ∀ d ∈ m.nodes, ¬ containsL d l) :
    (find_fcn_by_line m l).1
      = (m.subs.map Prod.snd).find? (fun c => c.isUF && decide (l ≤ c.beg)) := by
  rcases m with ⟨k, b, e, u, f, bd, nms, subs⟩
  simp only [UCode.isUF, UCode.endl] at hu hend
  simp only [UCode.subs]
  have hue : u = true := hu
  subst hue
  have hch : ∀ c ∈ subs.map Prod.snd, ¬ containsL c l := by
    intro c hc
    apply hnone
    rw [nodes_def, List.mem_cons]
    right
    rw [mem_nodesList]
    obtain ⟨p, hp, hpc⟩ := List.mem_map.mp hc
    cases hpc
    exact ⟨p, hp, mem_nodes_self _⟩
  obtain ⟨hl1, hl2⟩ := findLoop_no_hit l subs none none intMax (fun x hx _ => hch x hx)
  have hcond : ¬ (e ≥ l ∧ e < intMax) := by rintro ⟨hge, _⟩; omega
  rw [find_uf_gap k b e f bd nms subs l intMax hl1 hl2 hcond]
  rw [findLoop_next l subs none none intMax (fun x hx _ => hch x hx)]

/-- C6 (witness): line 120 lies beyond the top routine's end (100)
and inside no routine; the resolver snaps forward to the subfunction
beginning at line 150. -/
theorem C6_witness : (find_fcn_by_line exMainGap 120).1 = some exSubLate := by
  have h := C6_amended exMainGap 120 rfl (by decide) (by
    rw [exMainGap_nodes]
    intro d hd
    rcases List.mem_cons.mp hd with rfl | hd
    · decide
    · rcases List.mem_cons.mp hd with rfl | hd
      · decide
      · exact absurd hd (List.not_mem_nil d))
  rw [h]
  rfl

/-- C7: clause-ordering violations are rejected.  Whenever the
parser's loop is about to process a token it classifies as an `in`
clause (the literal keyword, or a bare non-keyword string that is not
a positive number) while an `in`, `at` or `if` clause has already
been seen — which covers both "a second `in`" and "`in` after
`at`/`if`" — the call returns an error; and whenever it is about to
process a token it classifies as an `at` clause (the literal keyword,
a bare positive-number string, or a non-string argument) while an
`at` or `if` clause has already been seen — "a second `at`" and "`at`
after `if`" — the call returns an error.  No branch repairs the
ordering silently.  (After an `if` clause the loop consumes every
remaining argument, so a subsequent clause can only be one the
classifier sees in a state with the corresponding flag set.) -/
theorem C7_ordering_rejected (env : ParseEnv) (args : List OctValue)
    (nargin fuel pos : Nat) (seen_in seen_at seen_if : Bool)
    (fn cn : String) (lines : IntMap) (li : Int) (cond : String) (st : TrigState)
    (hpos : pos < nargin) :
    (∀ s, argAt args pos = OctValue.str s → s ≠ "at" → s ≠ "if" →
      (s = "in" ∨ atoi s ≤ 0) →
      (seen_in = true ∨ seen_at = true ∨ seen_if = true) →
      ∃ msg, parseLoop env args nargin (fuel + 1) pos seen_in seen_at seen_if
        fn cn lines li cond st = .error msg)
    ∧ (((argAt args pos).is_string = false
        ∨ ∃ s, argAt args pos = OctValue.str s ∧ s ≠ "in" ∧ s ≠ "if"
            ∧ (s = "at" ∨ atoi s > 0)) →
      (seen_at = true ∨ seen_if = true) →
      ∃ msg, parseLoop env args nargin (fuel + 1) pos seen_in seen_at seen_if
        fn cn lines li cond st = .error msg) := by
  constructor
  · intro s hs hat hif hcls hseen
    rw [parseLoop.eq_def]
    by_cases hsin : s = "in"
    · subst hsin
      by_cases hpn : pos + 1 ≥ nargin
      · simp [hs, hpos, hpn]
      · cases hv : argAt args (pos + 1) with
        | num ns =>
          simp [hs, hpos, hpn, hv, OctValue.string_value]
        | str s2 =>
          cases hin : seen_in
          · have hor : seen_at = true ∨ seen_if = true := by
              rcases hseen with h | h | h
              · rw [h] at hin; cases hin
              · exact Or.inl h
              · exact Or.inr h
            simp [hs, hpos, hpn, hv, OctValue.string_value, hor]
          · simp [hs, hpos, hpn, hv, OctValue.string_value]
    · have hle : atoi s ≤ 0 := by
        rcases hcls with h | h
        · exact absurd h hsin
        · exact h
      have hngt : ¬ (atoi s > 0) := by omega
      cases hin : seen_in
      · have hor : seen_at = true ∨ seen_if = true := by
          rcases hseen with h | h | h
          · rw [h] at hin; cases hin
          · exact Or.inl h
          · exact Or.inr h
        simp [hs, hpos, hsin, hat, hif, hngt, OctValue.string_value, hor,
          Nat.not_le.mpr hpos]
      · simp [hs, hpos, hsin, hat, hif, hngt, OctValue.string_value,
          Nat.not_le.mpr hpos]
  · intro hoat hseen
    rw [parseLoop.eq_def]
    rcases hoat with hnum | ⟨s, hs, hsin, hif, hoat⟩
    · cases hv : argAt args pos with
      | str s2 => rw [hv] at hnum; cases hnum
      | num ns =>
        rcases hseen with h | h
        · subst h
          simp [hpos, hv, Nat.not_le.mpr hpos, OctValue.string_value]
        · subst h
          cases hat2 : seen_at <;>
            simp [hpos, hv, Nat.not_le.mpr hpos, OctValue.string_value]
    · by_cases hsat : s = "at"
      · subst hsat
        by_cases hpn : nargin ≤ pos + 1
        · simp [hs, hpos, hpn]
        · rcases hseen with h | h
          · subst h
            cases hv2 : argAt args (pos + 1) <;>
              simp [hs, hpos, hpn, hv2, OctValue.string_value]
          · subst h
            cases hat2 : seen_at <;>
              cases hv2 : argAt args (pos + 1) <;>
                simp [hs, hpos, hpn, hv2, OctValue.string_value]
      · have hgt : atoi s > 0 := by
          rcases hoat with h | h
          · exact absurd h hsat
          · exact h
        rcases hseen with h | h
        · subst h
          simp [hs, hpos, hsin, hif, hsat, hgt, Nat.not_le.mpr hpos,
            OctValue.string_value]
        · subst h
          cases hat2 : seen_at <;>
            simp [hs, hpos, hsin, hif, hsat, hgt, Nat.not_le.mpr hpos,
              OctValue.string_value]

/-- C7 (witness): a second function name after `in foo` is rejected
at a concrete state. -/
theorem C7_witness :
    ∃ msg, parseLoop ⟨"dbstop", false, ""⟩ [OctValue.str "bar"] 1 1 0
        true false false "foo" "" [] 0 "" ⟨[], [], [], false, false, false, false⟩
      = .error msg :=
  (C7_ordering_rejected ⟨"dbstop", false, ""⟩ [OctValue.str "bar"] 1 0 0 true false false
      "foo" "" [] 0 "" ⟨[], [], [], false, false, false, false⟩ (by decide)).1
    "bar" rfl (by decide) (by decide) (Or.inr (by decide)) (Or.inl rfl)

theorem lookup_append_single (m : IntMap) (i v k : Int) (h : k ≠ i) :
    List.lookup k (m ++ [(i, v)]) = List.lookup k m := by
  induction m with
  | nil => simp [List.lookup, beq_eq_false_iff_ne.mpr h]
  | cons p rest ih =>
    rcases p with ⟨a, b⟩
    rw [List.cons_append]
    simp only [List.lookup]
    split
    · rfl
    · exact ih

theorem IntMap.lookup_insert_ne (m : IntMap) (i v k : Int) (h : k ≠ i) :
    List.lookup k (m.insert i v) = List.lookup k m := by
  unfold IntMap.insert
  split
  · rfl
  · exact lookup_append_single m i v k h

theorem IntMap.lookup_insert_preserve (m : IntMap) (i w k v : Int)
    (h : List.lookup k m = some v) :
    List.lookup k (m.insert i w) = some v := by
  by_cases hk : k = i
  · subst hk
    unfold IntMap.insert
    rw [if_pos (by rw [h]; exact rfl)]
    exact h
  · rw [IntMap.lookup_insert_ne m i w k hk]
    exact h

theorem IntMap.lookup_insert_none (m : IntMap) (i v : Int)
    (h : List.lookup i m = none) :
    List.lookup i (m.insert i v) = some v := by
  unfold IntMap.insert
  rw [if_neg (by simp [h])]
  induction m with
  | nil => simp [List.lookup]
  | cons p rest ih =>
    rcases p with ⟨a, b⟩
    simp only [List.lookup] at h
    rw [List.cons_append]
    simp only [List.lookup]
    cases hia : (i == a : Bool)
    · simp only [hia] at h
      simp only [hia]
      exact ih h
    · simp only [hia] at h
      cases h

theorem lookup_map_snd (g : Int → Int) (m : IntMap) (k : Int) :
    List.lookup k (m.map (fun p => (p.1, g p.2))) = (List.lookup k m).map g := by
  induction m with
  | nil => simp
  | cons p rest ih =>
    rcases p with ⟨a, b⟩
    simp only [List.map_cons, List.lookup]
    cases hia : (k == a : Bool) <;> simp [hia, ih]

theorem lookup_mem (m : IntMap) (k v : Int) (h : List.lookup k m = some v) :
    (k, v) ∈ m := by
  induction m with
  | nil => cases h
  | cons p rest ih =>
    rcases p with ⟨a, b⟩
    simp only [List.lookup] at h
    cases hia : (k == a : Bool)
    · simp only [hia] at h
      exact List.mem_cons_of_mem _ (ih h)
    · simp only [hia] at h
      have hb : b = v := Option.some.inj h
      have hka : k = a := by simpa using hia
      subst hb
      subst hka
      exact List.mem_cons_self _ _

theorem addLoop_preserve (main : UCode) (fname : String) (line : IntMap) :
    ∀ (idxs : List Nat) (retval : IntMap) (tbl : TblState) (k v : Int),
      List.lookup k retval = some v →
      List.lookup k (addLoop main fname line idxs retval tbl).1 = some v
  | [], retval, tbl, k, v, h => h
  | i :: rest, retval, tbl, k, v, h => by
    cases hl : List.lookup (Int.ofNat i) line with
    | none =>
      simp only [addLoop, hl]
      exact addLoop_preserve main fname line rest retval tbl k v h
    | some lineno =>
      cases hf : (find_fcn_by_line main lineno).1 with
      | none =>
        simp only [addLoop, hl, hf]
        exact addLoop_preserve main fname line rest retval tbl k v h
      | some dbg =>
        cases hr : (add_breakpoint_1 dbg fname line tbl).1
        · simp only [addLoop, hl, hf, hr, Bool.false_eq_true, if_false]
          exact addLoop_preserve main fname line rest retval _ k v h
        · simp only [addLoop, hl, hf, hr, if_true]
          exact addLoop_preserve main fname line rest _ _ k v
            (IntMap.lookup_insert_preserve retval _ _ k v h)

theorem addLoop_omits (main : UCode) (fname : String) (line : IntMap)
    (j lineno : Int) (hj : List.lookup j line = some lineno)
    (hnone : (find_fcn_by_line main lineno).1 = none) :
    ∀ (idxs : List Nat) (retval : IntMap) (tbl : TblState),
      List.lookup j retval = none →
      List.lookup j (addLoop main fname line idxs retval tbl).1 = none
  | [], retval, tbl, h => h
  | i :: rest, retval, tbl, h => by
    cases hl : List.lookup (Int.ofNat i) line with
    | none =>
      simp only [addLoop, hl]
      exact addLoop_omits main fname line j lineno hj hnone rest retval tbl h
    | some lin2 =>
      by_cases hij : Int.ofNat i = j
      · subst hij
        rw [hj] at hl
        have hlin : lineno = lin2 := Option.some.inj hl
        subst hlin
        simp only [addLoop, hj, hnone]
        exact addLoop_omits main fname line _ lineno hj hnone rest retval tbl h
      · cases hf : (find_fcn_by_line main lin2).1 with
        | none =>
          simp only [addLoop, hl, hf]
          exact addLoop_omits main fname line j lineno hj hnone rest retval tbl h
        | some dbg =>
          cases hr : (add_breakpoint_1 dbg fname line tbl).1
          · simp only [addLoop, hl, hf, hr, Bool.false_eq_true, if_false]
            exact addLoop_omits main fname line j lineno hj hnone rest retval _ h
          · simp only [addLoop, hl, hf, hr, if_true]
            refine addLoop_omits main fname line j lineno hj hnone rest _ _ ?_
            rw [IntMap.lookup_insert_ne retval _ _ j (fun hh => hij hh.symm)]
            exact h

theorem addLoop_hits (main : UCode) (fname : String) (line : IntMap) :
    ∀ (idxs : List Nat), idxs.Nodup →
    ∀ (retval : IntMap) (tbl : TblState) (i : Nat) (l2 : Int) (f : UCode)
      (bmap : List (Int × Int)),
      i ∈ idxs → List.lookup (Int.ofNat i) line = some l2 →
      (find_fcn_by_line main l2).1 = some f → f.body = some bmap →
      snapOf bmap l2 ≠ 0 → List.lookup (Int.ofNat i) retval = none →
      List.lookup (Int.ofNat i) (addLoop main fname line idxs retval tbl).1
        = some (snapOf bmap l2)
  | [], _, retval, tbl, i, l2, f, bmap, hmem, _, _, _, _, _ => absurd hmem (List.not_mem_nil i)
  | i0 :: rest, hnd, retval, tbl, i, l2, f, bmap, hmem, hlk, hf, hb, hsnz, hr0 => by
    rw [List.nodup_cons] at hnd
    obtain ⟨hi0, hnd2⟩ := hnd
    rcases List.mem_cons.mp hmem with rfl | hmem2
    · simp only [addLoop, hlk, hf]
      have hretmem : (Int.ofNat i, snapOf bmap l2)
          ∈ line.map (fun p => (p.1, snapOf bmap p.2)) := by
        have : (Int.ofNat i, l2) ∈ line := lookup_mem line _ _ hlk
        exact List.mem_map.mpr ⟨(Int.ofNat i, l2), this, rfl⟩
      have hfound : (add_breakpoint_1 f fname line tbl).1 = true := by
        simp only [add_breakpoint_1, hb, bodyAddBreakpoints]
        rw [if_pos]
        apply List.any_eq_true.mpr
        exact ⟨(Int.ofNat i, snapOf bmap l2), hretmem, by simpa using hsnz⟩
      rw [hfound, if_pos rfl]
      have hret1 : (add_breakpoint_1 f fname line tbl).2.1
          = line.map (fun p => (p.1, snapOf bmap p.2)) := by
        simp only [add_breakpoint_1, hb, bodyAddBreakpoints]
        split <;> rfl
      apply addLoop_preserve
      rw [hret1, lookup_map_snd, hlk]
      exact IntMap.lookup_insert_none retval _ _ hr0
    · have hine : Int.ofNat i ≠ Int.ofNat i0 := by
        intro hh
        exact hi0 (Int.ofNat.inj hh ▸ hmem2)
      cases hl0 : List.lookup (Int.ofNat i0) line with
      | none =>
        simp only [addLoop, hl0]
        exact addLoop_hits main fname line rest hnd2 retval tbl i l2 f bmap
          hmem2 hlk hf hb hsnz hr0
      | some lin0 =>
        cases hf0 : (find_fcn_by_line main lin0).1 with
        | none =>
          simp only [addLoop, hl0, hf0]
          exact addLoop_hits main fname line rest hnd2 retval tbl i l2 f bmap
            hmem2 hlk hf hb hsnz hr0
        | some dbg =>
          cases hrb : (add_breakpoint_1 dbg fname line tbl).1
          · simp only [addLoop, hl0, hf0, hrb, Bool.false_eq_true, if_false]
            exact addLoop_hits main fname line rest hnd2 retval _ i l2 f bmap
              hmem2 hlk hf hb hsnz hr0
          · simp only [addLoop, hl0, hf0, hrb, if_true]
            refine addLoop_hits main fname line rest hnd2 _ _ i l2 f bmap
              hmem2 hlk hf hb hsnz ?_
            rw [IntMap.lookup_insert_ne retval _ _ _ hine]
            exact hr0

/-- C10: for an `add_breakpoint` call with a resolvable name and a
valid condition, a requested line that `find_fcn_by_line` maps to no
(sub)routine is silently omitted from the returned index-to-actual-
line map — the call still succeeds — while every other requested
index whose line resolves to a routine with a body and a nonzero
snapped line is processed and appears in the returned map. -/
theorem C10_unresolved_line_omitted (env : Env) (parse : String → ParseOutcome)
    (fname cls condition : String) (line : IntMap) (tbl : TblState) (main : UCode)
    (j : Nat) (lineno : Int)
    (hmain : env fname cls = some main)
    (hcond : condition_valid parse condition = .ok true)
    (hj : List.lookup (Int.ofNat j) line = some lineno)
    (hjnone : (find_fcn_by_line main lineno).1 = none) :
    ∃ m tbl2, add_breakpoint env parse fname cls line condition tbl = .ok (m, tbl2)
      ∧ List.lookup (Int.ofNat j) m = none
      ∧ ∀ (i : Nat) (l2 : Int) (f : UCode) (bmap : List (Int × Int)),
          i < line.length → List.lookup (Int.ofNat i) line = some l2 →
          (find_fcn_by_line main l2).1 = some f → f.body = some bmap →
          snapOf bmap l2 ≠ 0 →
          List.lookup (Int.ofNat i) m = some (snapOf bmap l2) := by
  refine ⟨(addLoop main fname line (List.range line.length) [] tbl).1,
    (addLoop main fname line (List.range line.length) [] tbl).2, ?_, ?_, ?_⟩
  · simp only [add_breakpoint, hmain, hcond]
  · exact addLoop_omits main fname line (Int.ofNat j) lineno hj hjnone
      (List.range line.length) [] tbl rfl
  · intro i l2 f bmap hi hlk hf hb hsnz
    exact addLoop_hits main fname line (List.range line.length) (List.nodup_range _)
      [] tbl i l2 f bmap (List.mem_range.mpr hi) hlk hf hb hsnz rfl

/-- C10 (witness): requesting lines 50 (beyond every routine of file
`f`) and 5 (inside the top routine): the call succeeds, index 0 is
silently omitted, index 1 is inserted at its snapped line 5. -/
theorem C10_witness :
    ∃ m tbl2, add_breakpoint exEnvF specParse "f" "" [(0, 50), (1, 5)] "" exTbl0
      = .ok (m, tbl2)
      ∧ List.lookup (Int.ofNat 0) m = none
      ∧ ∀ (i : Nat) (l2 : Int) (f : UCode) (bmap : List (Int × Int)),
          i < ([(0, 50), (1, 5)] : IntMap).length →
          List.lookup (Int.ofNat i) ([(0, 50), (1, 5)] : IntMap) = some l2 →
          (find_fcn_by_line exMainF l2).1 = some f → f.body = some bmap →
          snapOf bmap l2 ≠ 0 →
          List.lookup (Int.ofNat i) m = some (snapOf bmap l2) :=
  C10_unresolved_line_omitted exEnvF specParse "f" "" "" [(0, 50), (1, 5)] exTbl0
    exMainF 0 50 rfl rfl rfl
    (by simp [find_fcn_by_line, findLoop, exMainF, exSubG, UCode.isUF, UCode.beg,
      UCode.endl, intMax])


theorem runC3_stepA :
    add_breakpoint exEnvF specParse "f" "" [(0, 5)] "" exTbl0 = .ok ([(0, 5)], tblC3a) := by
  have hf : (find_fcn_by_line exMainF 5).1 = some exMainF := by
    simp [find_fcn_by_line, findLoop, exMainF, exSubG, UCode.isUF, UCode.beg,
      UCode.endl, intMax]
  rw [show add_breakpoint exEnvF specParse "f" "" [(0, 5)] "" exTbl0
      = Except.ok (addLoop exMainF "f" [(0, 5)] (List.range 1) [] exTbl0) from rfl]
  rw [show (List.range 1) = [0] from rfl]
  simp only [addLoop,
    show List.lookup (Int.ofNat 0) [((0 : Int), (5 : Int))] = some 5 from rfl, hf]
  simp [add_breakpoint_1, bodyAddBreakpoints, snapOf, setInsert, normalizeBpName,
    exMainF, exSubG, UCode.body, UCode.key, exTbl0, IntMap.insert, addLoop,
    List.lookup, tblC3a, List.takeWhile]

theorem runC3_stepB :
    add_breakpoint exEnvF specParse "f" "" [(0, 20)] "" tblC3a = .ok ([(0, 20)], tblC3b) := by
  have hf : (find_fcn_by_line exMainF 20).1 = some exSubG := by
    simp [find_fcn_by_line, findLoop, exMainF, exSubG, UCode.isUF, UCode.beg,
      UCode.endl, intMax]
  rw [show add_breakpoint exEnvF specParse "f" "" [(0, 20)] "" tblC3a
      = Except.ok (addLoop exMainF "f" [(0, 20)] (List.range 1) [] tblC3a) from rfl]
  rw [show (List.range 1) = [0] from rfl]
  simp only [addLoop,
    show List.lookup (Int.ofNat 0) [((0 : Int), (20 : Int))] = some 20 from rfl, hf]
  simp [add_breakpoint_1, bodyAddBreakpoints, snapOf, setInsert, normalizeBpName,
    exMainF, exSubG, UCode.body, UCode.key, tblC3a, tblC3b, IntMap.insert, addLoop,
    List.lookup, List.takeWhile]

theorem runC3_stepC :
    (remove_breakpoint exEnvF "f" [(0, 5)] tblC3b).map
      (fun r => (r.2.bp_set, r.2.store 1)) = Except.ok ([], [20]) := by
  decide

/-- C3: the code violates the claimed invariant.  Starting from the
empty table: add a breakpoint at line 5 (top-level routine of file
`f`) and one at line 20 (subfunction `g`), then remove line 5.
`remove_breakpoint_1` erases `f` from `m_bp_set` because the
top-level routine's breakpoint list became empty, even though
subfunction `g` still stores the breakpoint at line 20: afterwards
`m_bp_set` is empty while a routine of the file still holds a
breakpoint, contradicting the invariant the claim states. -/
theorem C3_name_set_invariant_violated :
    (runC3.map fun r => (r.2.bp_set, r.2.store 1)) = Except.ok ([], [20]) := by
  unfold runC3
  rw [runC3_stepA]
  simp only [Except.bind]
  rw [runC3_stepB]
  simp only [Except.bind]
  exact runC3_stepC
